import Mathlib

/-!
Shallow embedding of the state-materialization layer of the bbs repository
(package `store/state` and `store/state/states/v1`), together with proofs
about its operations.

The Go source files embedded here are:
* `src/store/state/viewer.go` — Indexer, Container, Viewer and its queries;
* `src/store/state/states/v1/pack_instance.go` — snapshot (pack) instance,
  extraction, and the two append-vote-page mutations;
* `src/store/state/compiler.go` — the Compiler's shutdown/update-loop
  interplay, modelled as a small interleaving transition system.

Conventions: cryptographic hashes and public keys are modelled as `String`
(the Go code itself mostly works with the hex form); Go maps are modelled as
functions into `Option`; Go sets (`map[string]struct{}`) are modelled as
duplicate-free `List String` with membership-preserving insert and
key-filtering delete; fallible Go functions return `Except ErrKind`.
Components of the repository that are not part of the provided sources
(pagination types, profile clearing, vote-summary stores) are modelled from
the specification and are marked `Modelled from the spec:` in their doc
comments.
-/

/-- Error kinds of the `boo` error package as used by the embedded code:
`notFound`, `invalidRead`, `internal` correspond to `boo.NotFound`,
`boo.InvalidRead`, `boo.Internal`; `outOfRange` is the pagination error of
§4.1; `nilDeref` models a Go nil-pointer / nil-interface dereference panic. -/
inductive ErrKind where
  | notFound
  | invalidRead
  | internal
  | outOfRange
  | nilDeref
deriving DecidableEq, Repr

/-- Content variant tags (`object.V5BoardType` … `object.V5UserVoteType`). -/
inductive CType where
  | board
  | thread
  | post
  | threadVote
  | postVote
  | userVote
deriving DecidableEq, Repr

/-- Content body (`object.Body`): variant tag, creator public key, board /
thread / parent-post / target-user references, vote value and tag set. -/
structure Body where
  type : CType
  creator : String
  ofBoard : String
  ofThread : String
  ofPost : String
  ofUser : String
  value : Int
  tags : List String
deriving DecidableEq, Repr

/-- A body with all-zero fields, used as a base for record updates. -/
def baseBody : Body :=
  ⟨CType.board, "", "", "", "", "", 0, []⟩

/-- Tag constant `object.TrustTag`. -/
def TrustTag : String := "trust"

/-- Tag constant `object.SpamTag`. -/
def SpamTag : String := "spam"

/-- Tag constant `object.BlockTag`. -/
def BlockTag : String := "block"

/-- Modelled from the spec: `object.Body.HasTag` is not among the provided
sources; §3 describes the vote-specific fields as carrying a tag set, so a
tag test is set membership. -/
def Body.hasTag (b : Body) (t : String) : Bool :=
  t ∈ b.tags

/-- A content item (`object.Content`): header hash plus body. -/
structure Content where
  hash : String
  body : Body
deriving DecidableEq, Repr

/-- Modelled from the spec: the vote view (`VoteRepView`) computed relative to
a perspective — aggregate counts plus whether the perspective user voted
(§4.5 Read queries, glossary "Perspective"). -/
structure VoteRepView where
  ref : String
  upCount : Nat
  downCount : Nat
  voted : Bool
deriving DecidableEq, Repr

/-- Per-content vote aggregate (`VotesRep`) of the Container. -/
structure VotesRep where
  kind : CType
  ref : String
  items : List Content
deriving DecidableEq, Repr

/-- `new(VotesRep).Fill(cType, cHash)`. -/
def VotesRep.fill (k : CType) (h : String) : VotesRep :=
  ⟨k, h, []⟩

/-- `VotesRep.Add(c)` appends a newly observed vote. -/
def VotesRep.add (r : VotesRep) (c : Content) : VotesRep :=
  { r with items := r.items ++ [c] }

/-- Modelled from the spec: `VotesRep.View(perspective)` renders aggregate
counts and the perspective user's own participation (§4.5). -/
def VotesRep.view (r : VotesRep) (persp : String) : VoteRepView :=
  { ref := r.ref
    upCount := (r.items.filter (fun c => c.body.value = 1)).length
    downCount := (r.items.filter (fun c => c.body.value = -1)).length
    voted := r.items.any (fun c => c.body.creator = persp) }

/-- Compiled content representation (`object.ContentRep`); `pubKey` is set
only on the board representation (`setBoard` assigns `rep.PubKey`). -/
structure ContentRep where
  hash : String
  pubKey : Option String
  body : Body
  votes : Option VoteRepView
deriving DecidableEq, Repr

/-- `object.Content.ToRep`. -/
def Content.toRep (c : Content) : ContentRep :=
  ⟨c.hash, none, c.body, none⟩

/-- Insert a key into a Go set (`m[k] = struct{}{}`): no duplicates. -/
def insertKey (l : List String) (k : String) : List String :=
  if k ∈ l then l else l ++ [k]

/-- Remove a key from a Go set (`delete(m, k)`): every occurrence goes. -/
def removeKey (l : List String) (k : String) : List String :=
  l.filter (fun x => x ≠ k)

/-- User reputation profile (`Profile`): six directional relationship sets. -/
structure Profile where
  trusted : List String
  trustedBy : List String
  markedAsSpam : List String
  markedAsSpamBy : List String
  blocked : List String
  blockedBy : List String
deriving DecidableEq, Repr

/-- `NewProfile()`: all sets empty. -/
def NewProfile : Profile :=
  ⟨[], [], [], [], [], []⟩

/-- Modelled from the spec: `Profile.ClearVotesFor` is not among the provided
sources; §4.5 requires clearing every directional effect the creator has on
the target, i.e. removing the target from the creator's `trusted`,
`markedAsSpam` and `blocked` sets. -/
def Profile.clearVotesFor (p : Profile) (target : String) : Profile :=
  { p with
    trusted := removeKey p.trusted target
    markedAsSpam := removeKey p.markedAsSpam target
    blocked := removeKey p.blocked target }

/-- Modelled from the spec: `Profile.ClearVotesBy` removes the creator from
the target's `trustedBy`, `markedAsSpamBy` and `blockedBy` sets (§4.5). -/
def Profile.clearVotesBy (p : Profile) (creator : String) : Profile :=
  { p with
    trustedBy := removeKey p.trustedBy creator
    markedAsSpamBy := removeKey p.markedAsSpamBy creator
    blockedBy := removeKey p.blockedBy creator }

/-- Modelled from the spec: the pagination index of §4.1 (`typ.Paginated`,
package `typ/paginatedtypes` is not among the provided sources). `keyed`
distinguishes the deduplicating `Mapped` variant from the plain `Simple`
variant. -/
structure Paginated where
  keys : List String
  keyed : Bool
deriving DecidableEq, Repr

/-- `paginatedtypes.NewSimple()`: plain variant, duplicates allowed. -/
def newSimple : Paginated :=
  ⟨[], false⟩

/-- `paginatedtypes.NewMapped()`: keyed variant, deduplicating. -/
def newMapped : Paginated :=
  ⟨[], true⟩

/-- Modelled from the spec: `Append(key)` adds the key at the end; the keyed
variant ignores a key it already holds (§4.1). -/
def Paginated.append (p : Paginated) (k : String) : Paginated :=
  if p.keyed ∧ k ∈ p.keys then p else { p with keys := p.keys ++ [k] }

/-- `Has(key)` existence check (§4.1). -/
def Paginated.has (p : Paginated) (k : String) : Bool :=
  k ∈ p.keys

/-- Pagination input (`typ.PaginatedInput`). -/
structure PaginatedInput where
  startIndex : Nat
  pageSize : Nat
deriving DecidableEq, Repr

/-- Modelled from the spec: `Get(startIndex, pageSize)` returns the clipped
contiguous sub-sequence and fails `OutOfRange` only when `startIndex`
exceeds the length (§4.1). -/
def Paginated.get (p : Paginated) (i : PaginatedInput) :
    Except ErrKind (List String) :=
  if p.keys.length < i.startIndex then Except.error ErrKind.outOfRange
  else Except.ok ((p.keys.drop i.startIndex).take i.pageSize)

/-- Pointwise map update (`m[k] = v`). -/
def mapSet {β : Type} (m : String → Option β) (k : String) (v : β) :
    String → Option β :=
  fun x => if x = k then some v else m x

/-- Pointwise map deletion (`delete(m, k)`). -/
def mapDel {β : Type} (m : String → Option β) (k : String) :
    String → Option β :=
  fun x => if x = k then none else m x

/-- The Viewer's combined state: `Viewer.pk`, the Indexer (`Board`,
`Threads`, `PostsOfThread`, `Users`) and the Container (`content`, `votes`,
`profiles`). -/
structure ViewerState where
  pk : String
  board : String
  threads : Paginated
  postsOfThread : String → Option Paginated
  users : Paginated
  content : String → Option ContentRep
  votes : String → Option VotesRep
  profiles : String → Option Profile

/-- Fresh Viewer state as built at the start of `NewViewer`:
`NewIndexer()` (simple thread list, mapped user list) and `NewContainer()`. -/
def emptyViewer (pk : String) : ViewerState :=
  ⟨pk, "", newSimple, fun _ => none, newMapped, fun _ => none,
    fun _ => none, fun _ => none⟩

/-- `checkBoardRef`: the body's declared board reference must match. -/
def checkBoardRef (expected : String) (b : Body) : Except ErrKind Unit :=
  if b.ofBoard = expected then Except.ok () else Except.error ErrKind.invalidRead

/-- `checkThreadRef`: the body's declared thread reference must match. -/
def checkThreadRef (expected : String) (b : Body) : Except ErrKind Unit :=
  if b.ofThread = expected then Except.ok () else Except.error ErrKind.invalidRead

/-- `Viewer.setBoard`: delete the container entry at the previous board key,
move the board key to the new content hash and store the representation with
the board public key set. -/
def ViewerState.setBoard (v : ViewerState) (bc : Content) : ViewerState :=
  let content1 := mapDel v.content v.board
  let rep := { bc.toRep with pubKey := some v.pk }
  { v with board := bc.hash, content := mapSet content1 bc.hash rep }

/-- `Viewer.addThread`: check the board reference, then index the thread and
give it a fresh keyed post list. -/
def ViewerState.addThread (v : ViewerState) (tc : Content) :
    Except ErrKind (String × ViewerState) := do
  let _ ← checkBoardRef v.pk tc.body
  let tHash := tc.hash
  Except.ok (tHash,
    { v with
      threads := v.threads.append tHash
      content := mapSet v.content tHash tc.toRep
      postsOfThread := mapSet v.postsOfThread tHash newMapped })

/-- `Viewer.addPost`: check board and thread references, append the post to
its thread's post list and compile its representation; when the post declares
a parent post, also link it into the parent's own post list. -/
def ViewerState.addPost (v : ViewerState) (tHash : String) (pc : Content) :
    Except ErrKind ViewerState := do
  let _ ← checkBoardRef v.pk pc.body
  let _ ← checkThreadRef tHash pc.body
  let pHash := pc.hash
  match v.postsOfThread tHash with
  | none => Except.error ErrKind.internal
  | some posts =>
    let v1 := { v with
      postsOfThread := mapSet v.postsOfThread tHash (posts.append pHash)
      content := mapSet v.content pHash pc.toRep }
    if pc.body.ofPost ≠ "" then
      let pList := (v1.postsOfThread pc.body.ofPost).getD newMapped
      Except.ok { v1 with
        postsOfThread := mapSet v1.postsOfThread pc.body.ofPost
          (pList.append pHash) }
    else Except.ok v1

/-- `Viewer.ensureUser`: index the user and create a profile if missing. -/
def ViewerState.ensureUser (v : ViewerState) (upk : String) : ViewerState :=
  let v1 := { v with users := v.users.append upk }
  match v1.profiles upk with
  | some _ => v1
  | none => { v1 with profiles := mapSet v1.profiles upk NewProfile }

/-- `Container.GetProfile` creates the profile when absent; this captures its
effect on the container. -/
def ViewerState.ensureProfile (v : ViewerState) (upk : String) : ViewerState :=
  match v.profiles upk with
  | some _ => v
  | none => { v with profiles := mapSet v.profiles upk NewProfile }

/-- In-place mutation of the (existing) profile a `GetProfile` pointer refers
to; no-op when the profile is absent. -/
def ViewerState.modifyProfile (v : ViewerState) (upk : String)
    (f : Profile → Profile) : ViewerState :=
  match v.profiles upk with
  | some p => { v with profiles := mapSet v.profiles upk (f p) }
  | none => v

/-- `Indexer.EnsureUsersOfUserVoteBody`: index both participants of a
user-vote body. -/
def ViewerState.ensureUsersOfUserVoteBody (v : ViewerState) (b : Body) :
    ViewerState :=
  { v with users := (v.users.append b.creator).append b.ofUser }

/-- The repeated block of `processUserVote`'s switch branches: index both
participants, then set the directional effect on the creator's profile and
the reverse effect on the target's. -/
def ViewerState.voteEffect (v : ViewerState) (b : Body)
    (eff effBy : Profile → Profile) : ViewerState :=
  let v1 := v.ensureUsersOfUserVoteBody b
  let v2 := v1.modifyProfile b.creator eff
  v2.modifyProfile b.ofUser effBy

/-- `Viewer.processUserVote`: fetch-or-create both profiles, clear every
prior directional effect of the creator on the target, then dispatch on the
vote value and tags exactly as the source's switch does (each matching `-1`
tag applies independently; an unmatched value leaves only the clearing). -/
def ViewerState.processUserVote (v : ViewerState) (b : Body) : ViewerState :=
  let v1 := v.ensureProfile b.creator
  let v2 := v1.ensureProfile b.ofUser
  let v3 := v2.modifyProfile b.creator (fun p => p.clearVotesFor b.ofUser)
  let v4 := v3.modifyProfile b.ofUser (fun p => p.clearVotesBy b.creator)
  if b.value = 1 then
    if b.hasTag TrustTag then
      v4.voteEffect b
        (fun p => { p with trusted := insertKey p.trusted b.ofUser })
        (fun p => { p with trustedBy := insertKey p.trustedBy b.creator })
    else v4
  else if b.value = -1 then
    let v5 :=
      if b.hasTag SpamTag then
        v4.voteEffect b
          (fun p => { p with markedAsSpam := insertKey p.markedAsSpam b.ofUser })
          (fun p => { p with markedAsSpamBy := insertKey p.markedAsSpamBy b.creator })
      else v4
    if b.hasTag BlockTag then
      v5.voteEffect b
        (fun p => { p with blocked := insertKey p.blocked b.ofUser })
        (fun p => { p with blockedBy := insertKey p.blockedBy b.creator })
    else v5
  else if b.value = 0 then
    v4.ensureUsersOfUserVoteBody b
  else v4

/-- The shared tail of `processVote` for thread- and post-votes: silently
ignore an unindexed target, otherwise fetch-or-create the vote aggregate for
the target hash and append the vote. -/
def ViewerState.processContentVote (v : ViewerState) (c : Content)
    (cHash : String) (cType : CType) : ViewerState :=
  match v.content cHash with
  | none => v
  | some _ =>
    let rep :=
      match v.votes cHash with
      | some r => r
      | none => VotesRep.fill cType cHash
    { v with votes := mapSet v.votes cHash (rep.add c) }

/-- `Viewer.processVote`: dispatch on the vote variant; user-votes go to
`processUserVote`; the Go function's error result is always nil, so the
embedding is total. -/
def ViewerState.processVote (v : ViewerState) (c : Content) : ViewerState :=
  match c.body.type with
  | CType.threadVote => v.processContentVote c c.body.ofThread CType.threadVote
  | CType.postVote => v.processContentVote c c.body.ofPost CType.postVote
  | CType.userVote => v.processUserVote c.body
  | _ => v

/-- The change set consumed by `Viewer.Update` (`headers.GetChanges()`):
new content plus recorded deletions. -/
structure Changes where
  new : List Content
  deletedThreads : List String
  deletedPosts : List (String × String)
deriving DecidableEq, Repr

/-- One iteration of `Viewer.Update`'s loop over the change set's `New`
list: ensure the creator is indexed, then dispatch on the content variant
(a post's thread hash is read from its body, errors ignored, as in the
source; the vote cases discard `processVote`'s nil error). -/
def ViewerState.updateNewItem (v : ViewerState) (c : Content) :
    Except ErrKind ViewerState :=
  let v1 := v.ensureUser c.body.creator
  match c.body.type with
  | CType.thread => (v1.addThread c).map (fun r => r.2)
  | CType.post => v1.addPost c.body.ofThread c
  | CType.threadVote => Except.ok (v1.processVote c)
  | CType.postVote => Except.ok (v1.processVote c)
  | CType.userVote => Except.ok (v1.processVote c)
  | CType.board => Except.ok v1

/-- `Viewer.Update`: re-read and replace the board entry, then consume the
change set's `New` list; the deletion lists are never read. -/
def ViewerState.update (v : ViewerState) (bc : Content) (ch : Changes) :
    Except ErrKind ViewerState :=
  List.foldlM ViewerState.updateNewItem (v.setBoard bc) ch.new

/-- The part of a snapshot `NewViewer` walks: the board content, the thread
pages (thread plus its posts) and the user-submission contents, in walk
order. -/
structure ViewSnapshot where
  board : Content
  threadPages : List (Content × List Content)
  userSubs : List Content
deriving DecidableEq, Repr

/-- One thread page of `NewViewer`'s walk: ensure the thread creator, add the
thread, then each post (ensuring its creator first). -/
def ViewerState.addThreadPage (v : ViewerState) (tp : Content × List Content) :
    Except ErrKind ViewerState := do
  let v1 := v.ensureUser tp.1.body.creator
  let (tHash, v2) ← v1.addThread tp.1
  List.foldlM (fun w pc => (w.ensureUser pc.body.creator).addPost tHash pc)
    v2 tp.2

/-- One user-submission of `NewViewer`'s walk: ensure the creator, then
process the vote (whose error result is always nil). -/
def ViewerState.processSub (v : ViewerState) (c : Content) :
    Except ErrKind ViewerState :=
  Except.ok ((v.ensureUser c.body.creator).processVote c)

/-- `NewViewer`: bootstrap from a full snapshot — set the board, walk every
thread page and every post in it, then every user-submitted vote. -/
def newViewer (pk : String) (s : ViewSnapshot) : Except ErrKind ViewerState := do
  let v := (emptyViewer pk).setBoard s.board
  let v1 ← List.foldlM ViewerState.addThreadPage v s.threadPages
  List.foldlM ViewerState.processSub v1 s.userSubs

/-- `Viewer.GetBoard`: the container entry at the board key (possibly nil). -/
def ViewerState.getBoard (v : ViewerState) : Except ErrKind (Option ContentRep) :=
  Except.ok (v.content v.board)

/-- Output of `GetThreadPage` (`ThreadPageOut`); entries mirror the Go
pointers, which may be nil. -/
structure ThreadPageOut where
  board : Option ContentRep
  thread : Option ContentRep
  posts : List (Option ContentRep)
deriving DecidableEq, Repr

/-- Vote-annotation of a representation: set its `Votes` view when the
container holds votes for the hash (the Go code mutates the shared
representation; the embedding returns the annotated value). -/
def ViewerState.annotate (v : ViewerState) (persp h : String)
    (r : ContentRep) : ContentRep :=
  match v.votes h with
  | some vr => { r with votes := some (vr.view persp) }
  | none => r

/-- `Viewer.GetThreadPage`: the `NotFound` check is on the container's
content entry for the requested hash; a hash whose content exists but which
has no post index makes the source call `Get` on a nil interface —
modelled as `nilDeref`. -/
def ViewerState.getThreadPage (v : ViewerState) (persp tHash : String)
    (pin : PaginatedInput) : Except ErrKind ThreadPageOut :=
  let brd := v.content v.board
  match v.content tHash with
  | none => Except.error ErrKind.notFound
  | some trep =>
    let trep1 := v.annotate persp tHash trep
    match v.postsOfThread tHash with
    | none => Except.error ErrKind.nilDeref
    | some posts =>
      match posts.get pin with
      | Except.error e => Except.error e
      | Except.ok pHashes =>
        Except.ok
          { board := brd
            thread := some trep1
            posts := pHashes.map
              (fun ph => (v.content ph).map (fun pr => v.annotate persp ph pr)) }

/-- Output of `GetVotes` (`ContentVotesOut`). -/
structure ContentVotesOut where
  votes : VoteRepView
deriving DecidableEq, Repr

/-- `Viewer.GetVotes`: the vote view when votes exist; an empty view (only
`Ref` set) when the content is indexed without votes; `NotFound` otherwise. -/
def ViewerState.getVotes (v : ViewerState) (persp h : String) :
    Except ErrKind ContentVotesOut :=
  match v.votes h with
  | some vr => Except.ok ⟨vr.view persp⟩
  | none =>
    match v.content h with
    | some _ => Except.ok ⟨⟨h, 0, 0, false⟩⟩
    | none => Except.error ErrKind.notFound

/-- Output of `GetUserProfile` (`UserProfileOut`). -/
structure UserProfileOut where
  userPubKey : String
  profile : Profile
deriving DecidableEq, Repr

/-- `Viewer.GetUserProfile`: `NotFound` when the user is not indexed,
`Internal` when indexed without a backing profile record. -/
def ViewerState.getUserProfile (v : ViewerState) (upk : String) :
    Except ErrKind UserProfileOut :=
  if v.users.has upk then
    match v.profiles upk with
    | none => Except.error ErrKind.internal
    | some p => Except.ok ⟨upk, p⟩
  else Except.error ErrKind.notFound

/-- Viewer states reachable through the public mutation surface: a
successful `NewViewer` bootstrap followed by any sequence of successful
`Update` calls. -/
inductive Reaches : ViewerState → Prop where
  | boot : ∀ (pk : String) (s : ViewSnapshot) (v : ViewerState),
      newViewer pk s = Except.ok v → Reaches v
  | step : ∀ (v : ViewerState) (bc : Content) (ch : Changes) (v' : ViewerState),
      Reaches v → v.update bc ch = Except.ok v' → Reaches v'

/-!
### Snapshot (pack) instance — `store/state/states/v1/pack_instance.go`
-/

/-- A vote-page record (`object.ContentVotesPage{Ref: hash}`). -/
structure ContentVotesPage where
  ref : String
deriving DecidableEq, Repr

/-- A vote summary (`object.VotesSummary`): page index, target content hash,
page content hash and the voter map (as an association list). -/
structure VotesSummary where
  index : Nat
  ofContent : String
  hash : String
  votes : List (String × Int)
deriving DecidableEq, Repr

/-- Stand-in for the external `cipher.SumSHA256(encoder.Serialize(vPage))`
(the snapshot store's `HashOf` capability, §6): an injective encoding. -/
def hashPage (p : ContentVotesPage) : String :=
  "sha256:" ++ p.ref

/-- The content-votes store (`ContentVotesStore`): kind name plus the map
from content hash to vote summary. -/
structure ContentVotesStore where
  name : String
  store : String → Option VotesSummary

/-- Modelled from the spec: `NewContentVotesStore` is not among the provided
sources; §4.2 describes it as the per-content vote-page index carrying
forward predecessor entries, keying one summary per vote page by the page's
content ref. -/
def NewContentVotesStore (old : Option ContentVotesStore) (name : String)
    (pages : List ContentVotesPage) : ContentVotesStore :=
  let base : String → Option VotesSummary :=
    match old with
    | some o => o.store
    | none => fun _ => none
  { name := name
    store := (pages.enum.foldl
      (fun m ip => mapSet m ip.2.ref ⟨ip.1, ip.2.ref, hashPage ip.2, []⟩)
      base) }

/-- `ContentVotesStore.Get`: summary for a hash, or a not-found error. -/
def ContentVotesStore.get (s : ContentVotesStore) (h : String) :
    Except ErrKind VotesSummary :=
  match s.store h with
  | some vs => Except.ok vs
  | none => Except.error ErrKind.notFound

/-- The post-origin index (`GotStore`): post hash to origin thread hash. -/
structure GotStore where
  origin : String → Option String

/-- Modelled from the spec: `NewGotStore` is not among the provided sources;
§4.2 describes the content-origin index built from the thread/post tree,
carrying forward predecessor entries. -/
def NewGotStore (old : Option GotStore)
    (content : List (String × List String)) : GotStore :=
  let base : String → Option String :=
    match old with
    | some o => o.origin
    | none => fun _ => none
  ⟨content.foldl (fun m tp => tp.2.foldl (fun m' ph => mapSet m' ph tp.1) m)
    base⟩

/-- `GotStore.GetPostOrigin`: the origin thread, or the zero hash. -/
def GotStore.getPostOrigin (g : GotStore) (ph : String) : String :=
  (g.origin ph).getD ""

/-- The change recorder (`io.Changes`): deletions are recorded only when a
predecessor instance exists (`recording`). -/
structure PackChanges where
  recording : Bool
  deletedThreads : List String
  deletedPosts : List (String × String)
deriving DecidableEq, Repr

/-- `io.NewChanges(pub, recording)`. -/
def NewChanges (recording : Bool) : PackChanges :=
  ⟨recording, [], []⟩

/-- Modelled from the spec: `Changes.RecordDeleteThread` appends a deleted
thread hash, a no-op when recording is disabled (§4.2). -/
def PackChanges.recordDeleteThread (c : PackChanges) (h : String) :
    PackChanges :=
  if c.recording then { c with deletedThreads := c.deletedThreads ++ [h] }
  else c

/-- Modelled from the spec: `Changes.RecordDeletePost` appends a deleted
post hash with its origin thread, a no-op when recording is disabled. -/
def PackChanges.recordDeletePost (c : PackChanges) (t h : String) :
    PackChanges :=
  if c.recording then { c with deletedPosts := c.deletedPosts ++ [(t, h)] }
  else c

/-- The user-votes store, kept only as the list of per-user submission
pages; no embedded claim inspects its contents. -/
structure UserVotesStore where
  users : List String
deriving DecidableEq, Repr

/-- Modelled from the spec: `NewUserVotesStore` builds per-target-user vote
summaries from the user-vote-page list (§4.2); only its construction site in
`extract` matters for the embedded claims. -/
def NewUserVotesStore (_old : Option UserVotesStore) (users : List String) :
    UserVotesStore :=
  ⟨users⟩

/-- The typed contents of the five root reference slots of a structurally
valid snapshot (`extractRootChildren` succeeding with matching variants):
thread pages with their posts, the two deletion lists, the three vote-page
lists. -/
structure Pack where
  content : List (String × List String)
  deletedThreadsSlot : List String
  deletedPostsSlot : List String
  threadVotesPages : List ContentVotesPage
  postVotesPages : List ContentVotesPage
  userVotesPages : List String
deriving DecidableEq, Repr

/-- `v1.PackInstance`: the snapshot plus the derived stores (`prev` is
dropped after extraction; `nil` store pointers are `none`). -/
structure PackInstance where
  pack : Pack
  changes : PackChanges
  gotStore : Option GotStore
  tVotesStore : Option ContentVotesStore
  pVotesStore : Option ContentVotesStore
  uVotesStore : Option UserVotesStore

/-- `nameThread` constant of the v1 package. -/
def nameThread : String := "thread"

/-- `namePost` constant of the v1 package. -/
def namePost : String := "post"

/-- `PackInstance.extract` on a structurally valid snapshot, preceded by the
`NewPackInstance` set-up (changes recording iff a predecessor exists): build
the got store, record the deletions (post origins looked up in the
predecessor's got store), then the vote stores. The source assigns the
result of building the thread-votes store to `p.tVotesStore` (line 109) and
then assigns the result of building the post-votes store to `p.tVotesStore`
as well (line 126); `p.pVotesStore` is never assigned and stays nil. The
embedding reproduces both assignments in order. -/
def extract (prev : Option PackInstance) (pack : Pack) : PackInstance :=
  let oldGS := prev.bind (fun p => p.gotStore)
  let oldTVS := prev.bind (fun p => p.tVotesStore)
  let oldPVS := prev.bind (fun p => p.pVotesStore)
  let oldUVS := prev.bind (fun p => p.uVotesStore)
  let changes0 := NewChanges prev.isSome
  let gs := NewGotStore oldGS pack.content
  let changes1 :=
    pack.deletedThreadsSlot.foldl PackChanges.recordDeleteThread changes0
  let changes2 :=
    pack.deletedPostsSlot.foldl
      (fun c ref =>
        let tRef :=
          match oldGS with
          | some g => g.getPostOrigin ref
          | none => ""
        c.recordDeletePost tRef ref)
      changes1
  let inst1 : PackInstance :=
    { pack := pack
      changes := changes2
      gotStore := some gs
      tVotesStore :=
        some (NewContentVotesStore oldTVS nameThread pack.threadVotesPages)
      pVotesStore := none
      uVotesStore := some (NewUserVotesStore oldUVS pack.userVotesPages) }
  { inst1 with
    tVotesStore :=
      some (NewContentVotesStore oldPVS namePost pack.postVotesPages) }

/-- `AppendThreadVotesPage`: return success unchanged when the compiled
store already has an entry for the hash; otherwise append a fresh vote-page
record to the root's thread vote-page list, persist it, and insert a fresh
empty summary into the store. A nil store pointer would make the existence
check panic (`nilDeref`). -/
def PackInstance.AppendThreadVotesPage (p : PackInstance) (tHash : String) :
    Except ErrKind PackInstance :=
  match p.tVotesStore with
  | none => Except.error ErrKind.nilDeref
  | some s =>
    match s.store tHash with
    | some _ => Except.ok p
    | none =>
      let vPage : ContentVotesPage := ⟨tHash⟩
      let tvPages := p.pack.threadVotesPages ++ [vPage]
      let pack1 := { p.pack with threadVotesPages := tvPages }
      let summary : VotesSummary :=
        ⟨tvPages.length - 1, tHash, hashPage vPage, []⟩
      let s1 := { s with store := mapSet s.store tHash summary }
      Except.ok { p with pack := pack1, tVotesStore := some s1 }

/-- `AppendPostVotesPage`: same shape as the thread variant but against
`p.pVotesStore` and the root's post vote-page list. Because `extract` never
assigns `pVotesStore`, the existence check dereferences a nil store on every
instance built by `NewPackInstance` (`nilDeref`). -/
def PackInstance.AppendPostVotesPage (p : PackInstance) (pHash : String) :
    Except ErrKind PackInstance :=
  match p.pVotesStore with
  | none => Except.error ErrKind.nilDeref
  | some s =>
    match s.store pHash with
    | some _ => Except.ok p
    | none =>
      let vPage : ContentVotesPage := ⟨pHash⟩
      let pvPages := p.pack.postVotesPages ++ [vPage]
      let pack1 := { p.pack with postVotesPages := pvPages }
      let summary : VotesSummary :=
        ⟨pvPages.length - 1, pHash, hashPage vPage, []⟩
      let s1 := { s with store := mapSet s.store pHash summary }
      Except.ok { p with pack := pack1, pVotesStore := some s1 }

/-!
### Compiler shutdown — `store/state/compiler.go`

`NewCompiler` spawns `updateLoop` as a background task; the loop's first
action is `c.wg.Add(1)`. `Close` repeatedly offers a non-blocking send on
the unbuffered `quit` channel; when the send cannot proceed it falls to the
`default` branch, waits on the wait-group and returns. The interleaving of
the loop and one `Close` call is modelled as a transition system over
program counters and the wait-group counter.
-/

/-- Program counter of the `updateLoop` goroutine: not yet scheduled (before
`wg.Add(1)`), blocked at the `select`, inside `doUpdate`, or returned
(after `wg.Done`). -/
inductive LoopPC where
  | beforeAdd
  | atSelect
  | inUpdate
  | exited
deriving DecidableEq, Repr

/-- Program counter of the `Close` caller: about to attempt the non-blocking
`quit` send, blocked in `wg.Wait`, or returned from `Close`. -/
inductive ClosePC where
  | trying
  | waiting
  | returned
deriving DecidableEq, Repr

/-- Joint state of the loop, the closer and the wait-group counter. -/
structure CompilerState where
  loopPC : LoopPC
  closePC : ClosePC
  wg : Nat
deriving DecidableEq, Repr

/-- One scheduler step of the loop/Close interleaving. The unbuffered `quit`
send can proceed only while the loop is blocked at its `select`; a
non-blocking send attempted at any other loop state takes the `default`
branch into `wg.Wait`, which returns as soon as the counter is zero. -/
inductive CompilerStep : CompilerState → CompilerState → Prop where
  | loopAdd : ∀ (c : ClosePC) (w : Nat),
      CompilerStep ⟨LoopPC.beforeAdd, c, w⟩ ⟨LoopPC.atSelect, c, w + 1⟩
  | tickFire : ∀ (c : ClosePC) (w : Nat),
      CompilerStep ⟨LoopPC.atSelect, c, w⟩ ⟨LoopPC.inUpdate, c, w⟩
  | updateRet : ∀ (c : ClosePC) (w : Nat),
      CompilerStep ⟨LoopPC.inUpdate, c, w⟩ ⟨LoopPC.atSelect, c, w⟩
  | quitSync : ∀ (w : Nat),
      CompilerStep ⟨LoopPC.atSelect, ClosePC.trying, w⟩
        ⟨LoopPC.exited, ClosePC.trying, w - 1⟩
  | closeDefault : ∀ (l : LoopPC) (w : Nat), l ≠ LoopPC.atSelect →
      CompilerStep ⟨l, ClosePC.trying, w⟩ ⟨l, ClosePC.waiting, w⟩
  | closeWaitZero : ∀ (l : LoopPC),
      CompilerStep ⟨l, ClosePC.waiting, 0⟩ ⟨l, ClosePC.returned, 0⟩

/-- Initial state of the race: `NewCompiler` has spawned the goroutine (not
yet scheduled, so `wg.Add(1)` has not run) and the caller invokes `Close`. -/
def compilerInit : CompilerState :=
  ⟨LoopPC.beforeAdd, ClosePC.trying, 0⟩

/-- A refresh running after shutdown completed: `Close` has returned while
the loop is inside `doUpdate`. -/
def compilerBad : CompilerState :=
  ⟨LoopPC.inUpdate, ClosePC.returned, 1⟩

/-!
### Basic lemmas about the set / map / pagination primitives
-/

theorem mem_insertKey {l : List String} {k x : String} :
    x ∈ insertKey l k ↔ x ∈ l ∨ x = k := by
  unfold insertKey
  split
  · constructor
    · exact fun h => Or.inl h
    · rintro (h | rfl)
      · exact h
      · assumption
  · simp [List.mem_append]

theorem mem_removeKey {l : List String} {k x : String} :
    x ∈ removeKey l k ↔ x ∈ l ∧ x ≠ k := by
  simp [removeKey, List.mem_filter]

theorem not_mem_removeKey_self {l : List String} {k : String} :
    k ∉ removeKey l k := by
  simp [mem_removeKey]

theorem Paginated.mem_append_keys {p : Paginated} {k x : String} :
    x ∈ (p.append k).keys ↔ x ∈ p.keys ∨ x = k := by
  unfold Paginated.append
  split
  · rename_i hk
    constructor
    · exact fun h => Or.inl h
    · rintro (h | rfl)
      · exact h
      · exact hk.2
  · simp [List.mem_append]

theorem mapSet_eq {β : Type} (m : String → Option β) (k : String) (v : β)
    (x : String) :
    mapSet m k v x = if x = k then some v else m x := rfl

theorem mapDel_eq {β : Type} (m : String → Option β) (k : String)
    (x : String) :
    mapDel m k x = if x = k then none else m x := rfl

/-!
### Frame lemmas for the Viewer's primitive operations

Each primitive touches only a few fields of the state; these lemmas record
which fields stay fixed and how the touched fields change.
-/

theorem setBoard_frame (v : ViewerState) (bc : Content) :
    (v.setBoard bc).pk = v.pk ∧ (v.setBoard bc).threads = v.threads ∧
    (v.setBoard bc).postsOfThread = v.postsOfThread ∧
    (v.setBoard bc).users = v.users ∧ (v.setBoard bc).votes = v.votes ∧
    (v.setBoard bc).profiles = v.profiles := by
  refine ⟨rfl, rfl, rfl, rfl, rfl, rfl⟩

theorem setBoard_board (v : ViewerState) (bc : Content) :
    (v.setBoard bc).board = bc.hash := rfl

theorem setBoard_content (v : ViewerState) (bc : Content) (x : String) :
    (v.setBoard bc).content x =
      if x = bc.hash then some { bc.toRep with pubKey := some v.pk }
      else if x = v.board then none else v.content x := rfl

theorem ensureUser_frame (v : ViewerState) (u : String) :
    (v.ensureUser u).pk = v.pk ∧ (v.ensureUser u).board = v.board ∧
    (v.ensureUser u).threads = v.threads ∧
    (v.ensureUser u).postsOfThread = v.postsOfThread ∧
    (v.ensureUser u).content = v.content ∧
    (v.ensureUser u).votes = v.votes := by
  unfold ViewerState.ensureUser
  dsimp only
  split <;> exact ⟨rfl, rfl, rfl, rfl, rfl, rfl⟩

theorem ensureUser_users (v : ViewerState) (u : String) :
    (v.ensureUser u).users = v.users.append u := by
  unfold ViewerState.ensureUser
  dsimp only
  split <;> rfl

theorem ensureUser_profiles_isSome (v : ViewerState) (u x : String) :
    ((v.ensureUser u).profiles x).isSome =
      (x = u ∨ (v.profiles x).isSome) := by
  unfold ViewerState.ensureUser
  dsimp only
  split
  · rename_i p hp
    by_cases hxu : x = u
    · subst hxu
      simp [hp]
    · simp [hxu]
  · rename_i hp
    by_cases hxu : x = u
    · subst hxu
      simp [mapSet]
    · simp [mapSet, hxu]

theorem ensureProfile_frame (v : ViewerState) (u : String) :
    (v.ensureProfile u).pk = v.pk ∧ (v.ensureProfile u).board = v.board ∧
    (v.ensureProfile u).threads = v.threads ∧
    (v.ensureProfile u).postsOfThread = v.postsOfThread ∧
    (v.ensureProfile u).content = v.content ∧
    (v.ensureProfile u).votes = v.votes ∧
    (v.ensureProfile u).users = v.users := by
  unfold ViewerState.ensureProfile
  split <;> exact ⟨rfl, rfl, rfl, rfl, rfl, rfl, rfl⟩

theorem ensureProfile_profiles (v : ViewerState) (u x : String) :
    (v.ensureProfile u).profiles x =
      if x = u then some ((v.profiles u).getD NewProfile)
      else v.profiles x := by
  unfold ViewerState.ensureProfile
  split
  · rename_i p hp
    by_cases hxu : x = u
    · subst hxu
      simp [hp]
    · simp [hxu]
  · rename_i hp
    by_cases hxu : x = u
    · subst hxu
      simp [mapSet, hp]
    · simp [mapSet, hxu]

theorem modifyProfile_frame (v : ViewerState) (u : String)
    (f : Profile → Profile) :
    (v.modifyProfile u f).pk = v.pk ∧ (v.modifyProfile u f).board = v.board ∧
    (v.modifyProfile u f).threads = v.threads ∧
    (v.modifyProfile u f).postsOfThread = v.postsOfThread ∧
    (v.modifyProfile u f).content = v.content ∧
    (v.modifyProfile u f).votes = v.votes ∧
    (v.modifyProfile u f).users = v.users := by
  unfold ViewerState.modifyProfile
  split <;> exact ⟨rfl, rfl, rfl, rfl, rfl, rfl, rfl⟩

theorem modifyProfile_profiles_of_some (v : ViewerState) (u : String)
    (f : Profile → Profile) (p : Profile) (hp : v.profiles u = some p)
    (x : String) :
    (v.modifyProfile u f).profiles x =
      if x = u then some (f p) else v.profiles x := by
  unfold ViewerState.modifyProfile
  rw [hp]
  by_cases hxu : x = u
  · subst hxu
    simp [mapSet]
  · simp [mapSet, hxu]

theorem modifyProfile_profiles_isSome (v : ViewerState) (u : String)
    (f : Profile → Profile) (x : String) :
    ((v.modifyProfile u f).profiles x).isSome = (v.profiles x).isSome := by
  unfold ViewerState.modifyProfile
  split
  · rename_i p hp
    by_cases hxu : x = u
    · subst hxu
      simp [mapSet, hp]
    · simp [mapSet, hxu]
  · rfl

theorem ensureUsersOfUserVoteBody_frame (v : ViewerState) (b : Body) :
    (v.ensureUsersOfUserVoteBody b).pk = v.pk ∧
    (v.ensureUsersOfUserVoteBody b).board = v.board ∧
    (v.ensureUsersOfUserVoteBody b).threads = v.threads ∧
    (v.ensureUsersOfUserVoteBody b).postsOfThread = v.postsOfThread ∧
    (v.ensureUsersOfUserVoteBody b).content = v.content ∧
    (v.ensureUsersOfUserVoteBody b).votes = v.votes ∧
    (v.ensureUsersOfUserVoteBody b).profiles = v.profiles := by
  exact ⟨rfl, rfl, rfl, rfl, rfl, rfl, rfl⟩

theorem ensureUsersOfUserVoteBody_users (v : ViewerState) (b : Body) :
    (v.ensureUsersOfUserVoteBody b).users =
      (v.users.append b.creator).append b.ofUser := rfl

theorem modifyProfile_content (v : ViewerState) (u : String)
    (f : Profile → Profile) : (v.modifyProfile u f).content = v.content :=
  (modifyProfile_frame v u f).2.2.2.2.1

theorem modifyProfile_votes (v : ViewerState) (u : String)
    (f : Profile → Profile) : (v.modifyProfile u f).votes = v.votes :=
  (modifyProfile_frame v u f).2.2.2.2.2.1

theorem modifyProfile_users (v : ViewerState) (u : String)
    (f : Profile → Profile) : (v.modifyProfile u f).users = v.users :=
  (modifyProfile_frame v u f).2.2.2.2.2.2

theorem modifyProfile_threads (v : ViewerState) (u : String)
    (f : Profile → Profile) : (v.modifyProfile u f).threads = v.threads :=
  (modifyProfile_frame v u f).2.2.1

theorem modifyProfile_postsOfThread (v : ViewerState) (u : String)
    (f : Profile → Profile) :
    (v.modifyProfile u f).postsOfThread = v.postsOfThread :=
  (modifyProfile_frame v u f).2.2.2.1

theorem modifyProfile_board (v : ViewerState) (u : String)
    (f : Profile → Profile) : (v.modifyProfile u f).board = v.board :=
  (modifyProfile_frame v u f).2.1

theorem modifyProfile_pk (v : ViewerState) (u : String)
    (f : Profile → Profile) : (v.modifyProfile u f).pk = v.pk :=
  (modifyProfile_frame v u f).1

theorem ensureProfile_content (v : ViewerState) (u : String) :
    (v.ensureProfile u).content = v.content :=
  (ensureProfile_frame v u).2.2.2.2.1

theorem ensureProfile_votes (v : ViewerState) (u : String) :
    (v.ensureProfile u).votes = v.votes :=
  (ensureProfile_frame v u).2.2.2.2.2.1

theorem ensureProfile_users (v : ViewerState) (u : String) :
    (v.ensureProfile u).users = v.users :=
  (ensureProfile_frame v u).2.2.2.2.2.2

theorem ensureProfile_threads (v : ViewerState) (u : String) :
    (v.ensureProfile u).threads = v.threads :=
  (ensureProfile_frame v u).2.2.1

theorem ensureProfile_postsOfThread (v : ViewerState) (u : String) :
    (v.ensureProfile u).postsOfThread = v.postsOfThread :=
  (ensureProfile_frame v u).2.2.2.1

theorem ensureProfile_board (v : ViewerState) (u : String) :
    (v.ensureProfile u).board = v.board :=
  (ensureProfile_frame v u).2.1

theorem ensureProfile_pk (v : ViewerState) (u : String) :
    (v.ensureProfile u).pk = v.pk :=
  (ensureProfile_frame v u).1

theorem ensureUsersOfUserVoteBody_content (v : ViewerState) (b : Body) :
    (v.ensureUsersOfUserVoteBody b).content = v.content := rfl

theorem ensureUsersOfUserVoteBody_votes (v : ViewerState) (b : Body) :
    (v.ensureUsersOfUserVoteBody b).votes = v.votes := rfl

theorem ensureUsersOfUserVoteBody_profiles (v : ViewerState) (b : Body) :
    (v.ensureUsersOfUserVoteBody b).profiles = v.profiles := rfl

theorem ensureUsersOfUserVoteBody_threads (v : ViewerState) (b : Body) :
    (v.ensureUsersOfUserVoteBody b).threads = v.threads := rfl

theorem ensureUsersOfUserVoteBody_postsOfThread (v : ViewerState) (b : Body) :
    (v.ensureUsersOfUserVoteBody b).postsOfThread = v.postsOfThread := rfl

theorem ensureUsersOfUserVoteBody_board (v : ViewerState) (b : Body) :
    (v.ensureUsersOfUserVoteBody b).board = v.board := rfl

theorem ensureUsersOfUserVoteBody_pk (v : ViewerState) (b : Body) :
    (v.ensureUsersOfUserVoteBody b).pk = v.pk := rfl

theorem ensureUser_content (v : ViewerState) (u : String) :
    (v.ensureUser u).content = v.content :=
  (ensureUser_frame v u).2.2.2.2.1

theorem ensureUser_votes (v : ViewerState) (u : String) :
    (v.ensureUser u).votes = v.votes :=
  (ensureUser_frame v u).2.2.2.2.2

theorem ensureUser_threads (v : ViewerState) (u : String) :
    (v.ensureUser u).threads = v.threads :=
  (ensureUser_frame v u).2.2.1

theorem ensureUser_postsOfThread (v : ViewerState) (u : String) :
    (v.ensureUser u).postsOfThread = v.postsOfThread :=
  (ensureUser_frame v u).2.2.2.1

theorem ensureUser_board (v : ViewerState) (u : String) :
    (v.ensureUser u).board = v.board :=
  (ensureUser_frame v u).2.1

theorem ensureUser_pk (v : ViewerState) (u : String) :
    (v.ensureUser u).pk = v.pk :=
  (ensureUser_frame v u).1

/-- `voteEffect` touches only the `Users` index and the profiles map. -/
theorem voteEffect_frame (v : ViewerState) (b : Body)
    (eff effBy : Profile → Profile) :
    (v.voteEffect b eff effBy).pk = v.pk ∧
    (v.voteEffect b eff effBy).board = v.board ∧
    (v.voteEffect b eff effBy).threads = v.threads ∧
    (v.voteEffect b eff effBy).postsOfThread = v.postsOfThread ∧
    (v.voteEffect b eff effBy).content = v.content ∧
    (v.voteEffect b eff effBy).votes = v.votes := by
  unfold ViewerState.voteEffect
  dsimp only
  simp only [modifyProfile_pk, modifyProfile_board, modifyProfile_threads,
    modifyProfile_postsOfThread, modifyProfile_content, modifyProfile_votes,
    ensureUsersOfUserVoteBody_pk, ensureUsersOfUserVoteBody_board,
    ensureUsersOfUserVoteBody_threads, ensureUsersOfUserVoteBody_postsOfThread,
    ensureUsersOfUserVoteBody_content, ensureUsersOfUserVoteBody_votes]
  exact ⟨trivial, trivial, trivial, trivial, trivial, trivial⟩

/-- `processUserVote` touches only the `Users` index and the profiles map. -/
theorem processUserVote_frame (v : ViewerState) (b : Body) :
    (v.processUserVote b).pk = v.pk ∧
    (v.processUserVote b).board = v.board ∧
    (v.processUserVote b).threads = v.threads ∧
    (v.processUserVote b).postsOfThread = v.postsOfThread ∧
    (v.processUserVote b).content = v.content ∧
    (v.processUserVote b).votes = v.votes := by
  unfold ViewerState.processUserVote
  dsimp only
  split_ifs <;>
    simp only [voteEffect_frame, modifyProfile_pk, modifyProfile_board,
      modifyProfile_threads, modifyProfile_postsOfThread, modifyProfile_content,
      modifyProfile_votes, ensureProfile_pk, ensureProfile_board,
      ensureProfile_threads, ensureProfile_postsOfThread, ensureProfile_content,
      ensureProfile_votes, ensureUsersOfUserVoteBody_pk,
      ensureUsersOfUserVoteBody_board, ensureUsersOfUserVoteBody_threads,
      ensureUsersOfUserVoteBody_postsOfThread, ensureUsersOfUserVoteBody_content,
      ensureUsersOfUserVoteBody_votes,
      (voteEffect_frame _ _ _ _).1, (voteEffect_frame _ _ _ _).2.1,
      (voteEffect_frame _ _ _ _).2.2.1, (voteEffect_frame _ _ _ _).2.2.2.1,
      (voteEffect_frame _ _ _ _).2.2.2.2.1,
      (voteEffect_frame _ _ _ _).2.2.2.2.2] <;>
    exact ⟨trivial, trivial, trivial, trivial, trivial, trivial⟩

/-- `processContentVote` touches only the votes map. -/
theorem processContentVote_frame (v : ViewerState) (c : Content)
    (cHash : String) (cType : CType) :
    (v.processContentVote c cHash cType).pk = v.pk ∧
    (v.processContentVote c cHash cType).board = v.board ∧
    (v.processContentVote c cHash cType).threads = v.threads ∧
    (v.processContentVote c cHash cType).postsOfThread = v.postsOfThread ∧
    (v.processContentVote c cHash cType).content = v.content ∧
    (v.processContentVote c cHash cType).users = v.users ∧
    (v.processContentVote c cHash cType).profiles = v.profiles := by
  unfold ViewerState.processContentVote
  split
  · exact ⟨rfl, rfl, rfl, rfl, rfl, rfl, rfl⟩
  · exact ⟨rfl, rfl, rfl, rfl, rfl, rfl, rfl⟩

/-- `processVote` never touches the content map, the thread index, the
per-thread post lists, the board key or the public key. -/
theorem processVote_frame (v : ViewerState) (c : Content) :
    (v.processVote c).pk = v.pk ∧
    (v.processVote c).board = v.board ∧
    (v.processVote c).threads = v.threads ∧
    (v.processVote c).postsOfThread = v.postsOfThread ∧
    (v.processVote c).content = v.content := by
  unfold ViewerState.processVote
  cases c.body.type
  · exact ⟨rfl, rfl, rfl, rfl, rfl⟩
  · exact ⟨rfl, rfl, rfl, rfl, rfl⟩
  · exact ⟨rfl, rfl, rfl, rfl, rfl⟩
  · exact ⟨(processContentVote_frame _ _ _ _).1,
      (processContentVote_frame _ _ _ _).2.1,
      (processContentVote_frame _ _ _ _).2.2.1,
      (processContentVote_frame _ _ _ _).2.2.2.1,
      (processContentVote_frame _ _ _ _).2.2.2.2.1⟩
  · exact ⟨(processContentVote_frame _ _ _ _).1,
      (processContentVote_frame _ _ _ _).2.1,
      (processContentVote_frame _ _ _ _).2.2.1,
      (processContentVote_frame _ _ _ _).2.2.2.1,
      (processContentVote_frame _ _ _ _).2.2.2.2.1⟩
  · exact ⟨(processUserVote_frame _ _).1, (processUserVote_frame _ _).2.1,
      (processUserVote_frame _ _).2.2.1, (processUserVote_frame _ _).2.2.2.1,
      (processUserVote_frame _ _).2.2.2.2.1⟩

/-!
### Claim C8 — Compiler shutdown
-/

/-- C8: the claim "after Close() returns, no refresh runs — the background
update loop has exited before Close returns, for every interleaving" is
false on the code: because `updateLoop` performs `wg.Add(1)` only after the
goroutine is scheduled, the schedule in which `Close` runs first finds the
`quit` send not ready, falls to `default`, sees a zero wait-group and
returns — after which the loop starts, and `doUpdate` runs. The spec's
shutdown guarantee (§4.4) is the clear intent, so this is a code bug; this
theorem exhibits the violating execution. -/
theorem compiler_close_race :
    Relation.ReflTransGen CompilerStep compilerInit compilerBad := by
  have h1 : CompilerStep compilerInit
      ⟨LoopPC.beforeAdd, ClosePC.waiting, 0⟩ :=
    CompilerStep.closeDefault LoopPC.beforeAdd 0 (by intro h; cases h)
  have h2 : CompilerStep ⟨LoopPC.beforeAdd, ClosePC.waiting, 0⟩
      ⟨LoopPC.beforeAdd, ClosePC.returned, 0⟩ :=
    CompilerStep.closeWaitZero LoopPC.beforeAdd
  have h3 : CompilerStep ⟨LoopPC.beforeAdd, ClosePC.returned, 0⟩
      ⟨LoopPC.atSelect, ClosePC.returned, 1⟩ :=
    CompilerStep.loopAdd ClosePC.returned 0
  have h4 : CompilerStep ⟨LoopPC.atSelect, ClosePC.returned, 1⟩
      compilerBad :=
    CompilerStep.tickFire ClosePC.returned 1
  exact Relation.ReflTransGen.head h1
    (Relation.ReflTransGen.head h2
      (Relation.ReflTransGen.head h3 (Relation.ReflTransGen.single h4)))

/-!
### Claims C1 and C3 — snapshot-instance extraction and the append mutations
-/

/-- A structurally valid sample snapshot: one thread with one post, no
deletions, one thread-vote page (for hash `TV1`) and one post-vote page
(for hash `PV1`). -/
def samplePack : Pack :=
  { content := [("T1", ["P1"])]
    deletedThreadsSlot := []
    deletedPostsSlot := []
    threadVotesPages := [⟨"TV1"⟩]
    postVotesPages := [⟨"PV1"⟩]
    userVotesPages := [] }

/-- C1: the claim "after successful construction, the thread-votes store is
reachable through tVotesStore and the post-votes store through pVotesStore"
is false on the code and right as intent (the spec flags the duplicate
assignment as a probable defect): after `extract`, the `tVotesStore` field
holds the store built from the POST vote-page list (its name is `namePost`
and it indexes `PV1`, not the thread page `TV1`), and `pVotesStore` was
never assigned. -/
theorem extract_assigns_post_store_to_thread_field :
    ((extract none samplePack).tVotesStore.map
        (fun s => (s.name, (s.store "TV1").isSome, (s.store "PV1").isSome)))
      = some (namePost, false, true)
  ∧ (extract none samplePack).pVotesStore.isSome = false := by
  exact ⟨rfl, rfl⟩

/-- C3: the claim "AppendThreadVotesPage(h) and AppendPostVotesPage(h) each
succeed twice, leaving one vote-page entry and one summary" holds for the
thread variant but fails for the post variant on every instance built by
`NewPackInstance`: `extract` never assigns `pVotesStore`, so the post
variant dereferences a nil store. The conjuncts show, on a freshly
extracted instance: (1) `pVotesStore` is nil; (2) `AppendPostVotesPage`
fails by nil dereference instead of succeeding; (3) a first
`AppendThreadVotesPage "T9"` adds exactly one page entry for `T9` and one
summary for `T9`; (4) a second call returns the instance unchanged. -/
theorem appendPostVotesPage_nil_store :
    (extract none samplePack).pVotesStore.isSome = false
  ∧ (extract none samplePack).AppendPostVotesPage "P9"
      = Except.error ErrKind.nilDeref
  ∧ ((extract none samplePack).AppendThreadVotesPage "T9").map
      (fun i => (i.pack.threadVotesPages,
        (i.tVotesStore.map (fun s => (s.store "T9").isSome)).getD false))
      = Except.ok ([⟨"TV1"⟩, ⟨"T9"⟩], true)
  ∧ ((extract none samplePack).AppendThreadVotesPage "T9").bind
      (fun i => i.AppendThreadVotesPage "T9")
      = (extract none samplePack).AppendThreadVotesPage "T9" := by
  refine ⟨rfl, rfl, ?_, rfl⟩
  rfl

/-!
### Claim C6 — GetVotes
-/

/-- C6: `GetVotes` fails `NotFound` exactly when the hash has neither a vote
aggregate nor a container content entry; when votes exist it returns their
view; when only content exists it returns the empty vote view with `Ref`
set to the hash and no vote data. -/
theorem getVotes_spec (v : ViewerState) (persp h : String) :
    (v.getVotes persp h = Except.error ErrKind.notFound
      ↔ (v.votes h = none ∧ v.content h = none))
  ∧ (∀ vr, v.votes h = some vr →
      v.getVotes persp h = Except.ok ⟨vr.view persp⟩)
  ∧ (v.votes h = none → (v.content h).isSome →
      v.getVotes persp h = Except.ok ⟨⟨h, 0, 0, false⟩⟩) := by
  refine ⟨⟨?_, ?_⟩, ?_, ?_⟩
  · intro hEq
    cases hv : v.votes h with
    | some vr => simp [ViewerState.getVotes, hv] at hEq
    | none =>
      cases hc : v.content h with
      | some r => simp [ViewerState.getVotes, hv, hc] at hEq
      | none => exact ⟨rfl, rfl⟩
  · rintro ⟨hv, hc⟩
    simp [ViewerState.getVotes, hv, hc]
  · intro vr hv
    simp [ViewerState.getVotes, hv]
  · intro hv hc
    cases hc2 : v.content h with
    | none => rw [hc2] at hc; cases hc
    | some r => simp [ViewerState.getVotes, hv, hc2]

/-- A viewer holding only a board entry (hash `B`), as after bootstrapping a
board-only snapshot. -/
def boardOnlyViewer : ViewerState :=
  (emptyViewer "PK").setBoard ⟨"B", baseBody⟩

/-- Witness for C6: on `boardOnlyViewer`, hash `B` is indexed without votes
and `GetVotes` returns the empty vote view for it. -/
theorem getVotes_spec_witness :
    boardOnlyViewer.getVotes "" "B" = Except.ok ⟨⟨"B", 0, 0, false⟩⟩ :=
  (getVotes_spec boardOnlyViewer "" "B").2.2 rfl rfl

/-!
### Claim C7 — votes whose target content is not indexed
-/

/-- A post-vote from a fresh user `U9` targeting the unindexed hash `X`. -/
def strayVote : Content :=
  ⟨"V1", { baseBody with
    type := CType.postVote, creator := "U9", ofPost := "X" }⟩

/-- Counterexample for C7: processing a post-vote with an unindexed target
during incremental update (or bootstrap) does NOT leave the Indexer
unchanged — the dispatcher has already indexed the vote's creator, so the
`Users` pagination index gains `U9` even though the vote itself is ignored.
(The same holds for the bootstrap path `processSub`.) -/
theorem processVote_unindexed_counterexample :
    ((emptyViewer "PK").updateNewItem strayVote).map
        (fun v => v.users.keys) = Except.ok ["U9"]
  ∧ ((emptyViewer "PK").processSub strayVote).map
        (fun v => v.users.keys) = Except.ok ["U9"]
  ∧ (emptyViewer "PK").users.keys = [] := by
  exact ⟨rfl, rfl, rfl⟩

/-- C7 (amended): `processVote` itself on a thread- or post-vote whose
target content hash is not in the Container returns no error and leaves the
whole Viewer state unchanged; the surrounding per-item dispatch of both
bootstrap (`processSub`) and incremental update (`updateNewItem`)
additionally ensures the vote's creator is indexed as a user — which is the
only state change. -/
theorem processVote_unindexed_target_noop (v : ViewerState) (c : Content)
    (hcase : (c.body.type = CType.threadVote ∧ v.content c.body.ofThread = none)
      ∨ (c.body.type = CType.postVote ∧ v.content c.body.ofPost = none)) :
    v.processVote c = v
  ∧ v.updateNewItem c = Except.ok (v.ensureUser c.body.creator)
  ∧ v.processSub c = Except.ok (v.ensureUser c.body.creator) := by
  have hinner : ∀ (w : ViewerState),
      w.content = v.content → w.processVote c = w := by
    intro w hw
    rcases hcase with ⟨ht, hc⟩ | ⟨ht, hc⟩ <;>
      · unfold ViewerState.processVote
        rw [ht]
        unfold ViewerState.processContentVote
        rw [hw, hc]
  have h1 : v.processVote c = v := hinner v rfl
  have h2 : (v.ensureUser c.body.creator).processVote c
      = v.ensureUser c.body.creator :=
    hinner _ (ensureUser_content v c.body.creator)
  refine ⟨h1, ?_, ?_⟩
  · unfold ViewerState.updateNewItem
    rcases hcase with ⟨ht, _⟩ | ⟨ht, _⟩ <;> rw [ht] <;> dsimp only <;>
      rw [h2]
  · unfold ViewerState.processSub
    rw [h2]

/-- Witness for C7's amended theorem at the concrete stray vote. -/
theorem processVote_unindexed_target_noop_witness :
    (emptyViewer "PK").processVote strayVote = emptyViewer "PK"
  ∧ (emptyViewer "PK").updateNewItem strayVote
      = Except.ok ((emptyViewer "PK").ensureUser strayVote.body.creator)
  ∧ (emptyViewer "PK").processSub strayVote
      = Except.ok ((emptyViewer "PK").ensureUser strayVote.body.creator) :=
  processVote_unindexed_target_noop (emptyViewer "PK") strayVote
    (Or.inr ⟨rfl, rfl⟩)

/-!
### Claim C5 — GetThreadPage
-/

/-- Counterexample for C5: the claim "GetThreadPage fails NotFound whenever
the hash is not an indexed thread" is false: the board hash `B` is not an
indexed thread of `boardOnlyViewer`, yet `GetThreadPage` does not fail
`NotFound` — the source checks the Container's content map (which holds the
board), then calls `Get` on the nil post-list interface, a panic modelled
as `nilDeref`. -/
theorem getThreadPage_container_check_counterexample :
    boardOnlyViewer.getThreadPage "" "B" ⟨0, 10⟩
      = Except.error ErrKind.nilDeref
  ∧ ErrKind.nilDeref ≠ ErrKind.notFound
  ∧ boardOnlyViewer.threads.has "B" = false
  ∧ (boardOnlyViewer.content "B").isSome = true := by
  refine ⟨rfl, by decide, rfl, rfl⟩

/-- C5 (amended): `GetThreadPage` fails `NotFound` exactly when the hash has
no entry in the Container's content map (not: "is not an indexed thread" —
see the counterexample); and for a hash with a content entry and a post
index (as every indexed thread has), with a start index within range, it
returns the board entry, the vote-annotated thread representation and the
requested page of post representations. -/
theorem getThreadPage_spec (v : ViewerState) (persp t : String)
    (pin : PaginatedInput) :
    (v.getThreadPage persp t pin = Except.error ErrKind.notFound
      ↔ v.content t = none)
  ∧ (∀ trep pl, v.content t = some trep → v.postsOfThread t = some pl →
      pin.startIndex ≤ pl.keys.length →
      v.getThreadPage persp t pin = Except.ok
        { board := v.content v.board
          thread := some (v.annotate persp t trep)
          posts := ((pl.keys.drop pin.startIndex).take pin.pageSize).map
            (fun ph => (v.content ph).map (fun pr => v.annotate persp ph pr)) }) := by
  refine ⟨⟨?_, ?_⟩, ?_⟩
  · intro hEq
    cases hc : v.content t with
    | none => rfl
    | some trep =>
      exfalso
      cases hp : v.postsOfThread t with
      | none => simp [ViewerState.getThreadPage, hc, hp] at hEq
      | some posts =>
        cases hg : posts.get pin with
        | error e =>
          have he : e = ErrKind.outOfRange := by
            unfold Paginated.get at hg
            split at hg
            · cases hg; rfl
            · cases hg
          subst he
          simp [ViewerState.getThreadPage, hc, hp, hg] at hEq
        | ok pHashes =>
          simp [ViewerState.getThreadPage, hc, hp, hg] at hEq
  · intro hc
    simp [ViewerState.getThreadPage, hc]
  · intro trep pl hc hp hle
    have hnlt : ¬ (pl.keys.length < pin.startIndex) := Nat.not_lt.mpr hle
    simp [ViewerState.getThreadPage, hc, hp, Paginated.get, hnlt]

/-- The thread content used by concrete witnesses. -/
def threadC : Content :=
  ⟨"T1", { baseBody with
    type := CType.thread, creator := "U1", ofBoard := "PK" }⟩

/-- A viewer holding the board `B` and the single thread `T1`. -/
def vT : ViewerState :=
  (((emptyViewer "PK").setBoard ⟨"B", baseBody⟩).addThread threadC).toOption
    |>.map (fun r => r.2) |>.getD (emptyViewer "PK")

/-- Witness for C5's amended theorem: on `vT`, thread `T1` is indexed and
`GetThreadPage` succeeds with the board, the thread and an empty post page. -/
theorem getThreadPage_spec_witness :
    vT.getThreadPage "" "T1" ⟨0, 10⟩ = Except.ok
      { board := vT.content vT.board
        thread := some (vT.annotate "" "T1" threadC.toRep)
        posts := [] } :=
  (getThreadPage_spec vT "" "T1" ⟨0, 10⟩).2 threadC.toRep newMapped rfl rfl
    (Nat.zero_le _)

/-!
### Claim C2 — latest-vote-wins for user-votes
-/

/-- Profiles after `voteEffect`: sequential map updates at the creator and
target keys, covering the aliased case (creator = target). -/
theorem voteEffect_profiles (v : ViewerState) (b : Body)
    (eff effBy : Profile → Profile) (qc qt : Profile)
    (hc : v.profiles b.creator = some qc)
    (hu : v.profiles b.ofUser = some qt) :
    (b.creator = b.ofUser ∧ qc = qt ∧
      (v.voteEffect b eff effBy).profiles b.creator = some (effBy (eff qc)) ∧
      (v.voteEffect b eff effBy).profiles b.ofUser = some (effBy (eff qc)))
  ∨ (b.creator ≠ b.ofUser ∧
      (v.voteEffect b eff effBy).profiles b.creator = some (eff qc) ∧
      (v.voteEffect b eff effBy).profiles b.ofUser = some (effBy qt)) := by
  unfold ViewerState.voteEffect
  dsimp only
  have hwc : (v.ensureUsersOfUserVoteBody b).profiles b.creator = some qc := hc
  have hwu : (v.ensureUsersOfUserVoteBody b).profiles b.ofUser = some qt := hu
  have hva := modifyProfile_profiles_of_some
    (v.ensureUsersOfUserVoteBody b) b.creator eff qc hwc
  by_cases hCU : b.creator = b.ofUser
  · have hqq : qc = qt := by
      rw [hCU] at hwc
      rw [hwc] at hwu
      exact Option.some.inj hwu
    have hvau : ((v.ensureUsersOfUserVoteBody b).modifyProfile b.creator
        eff).profiles b.ofUser = some (eff qc) := by
      rw [hva b.ofUser, if_pos hCU.symm]
    have hvb := modifyProfile_profiles_of_some _ b.ofUser effBy (eff qc) hvau
    left
    refine ⟨hCU, hqq, ?_, ?_⟩
    · rw [hvb b.creator, if_pos hCU]
    · rw [hvb b.ofUser, if_pos rfl]
  · have hvau : ((v.ensureUsersOfUserVoteBody b).modifyProfile b.creator
        eff).profiles b.ofUser = some qt := by
      rw [hva b.ofUser, if_neg (fun hh => hCU hh.symm)]
      exact hwu
    have hvb := modifyProfile_profiles_of_some _ b.ofUser effBy qt hvau
    right
    refine ⟨hCU, ?_, ?_⟩
    · rw [hvb b.creator, if_neg hCU, hva b.creator, if_pos rfl]
    · rw [hvb b.ofUser, if_pos rfl]

/-- After the fetch-or-create and clearing prefix of `processUserVote`, both
profiles exist and carry no directional effect for the (creator, target)
pair; with aliased keys the two profiles coincide. -/
theorem clearStage_profiles (v : ViewerState) (b : Body) :
    ∃ qc qt,
      ((((v.ensureProfile b.creator).ensureProfile b.ofUser).modifyProfile
          b.creator (fun p => p.clearVotesFor b.ofUser)).modifyProfile
          b.ofUser (fun p => p.clearVotesBy b.creator)).profiles b.creator
        = some qc ∧
      ((((v.ensureProfile b.creator).ensureProfile b.ofUser).modifyProfile
          b.creator (fun p => p.clearVotesFor b.ofUser)).modifyProfile
          b.ofUser (fun p => p.clearVotesBy b.creator)).profiles b.ofUser
        = some qt ∧
      b.ofUser ∉ qc.trusted ∧ b.ofUser ∉ qc.markedAsSpam ∧
      b.ofUser ∉ qc.blocked ∧ b.creator ∉ qt.trustedBy ∧
      b.creator ∉ qt.markedAsSpamBy ∧ b.creator ∉ qt.blockedBy ∧
      (b.creator = b.ofUser → qc = qt) := by
  have h1 := ensureProfile_profiles v b.creator
  have h2 := ensureProfile_profiles (v.ensureProfile b.creator) b.ofUser
  by_cases hCU : b.creator = b.ofUser
  · -- aliased: a single profile is ensured, cleared for, then cleared by
    have h2c : ((v.ensureProfile b.creator).ensureProfile b.ofUser).profiles
        b.creator
        = some (((v.ensureProfile b.creator).profiles b.ofUser).getD
          NewProfile) := by
      rw [h2 b.creator, if_pos hCU]
    have h3 := modifyProfile_profiles_of_some _ b.creator
      (fun p => p.clearVotesFor b.ofUser) _ h2c
    have h3u : (((v.ensureProfile b.creator).ensureProfile
        b.ofUser).modifyProfile b.creator
        (fun p => p.clearVotesFor b.ofUser)).profiles b.ofUser
        = some ((((v.ensureProfile b.creator).profiles b.ofUser).getD
          NewProfile).clearVotesFor b.ofUser) := by
      rw [h3 b.ofUser, if_pos hCU.symm]
    have h4 := modifyProfile_profiles_of_some _ b.ofUser
      (fun p => p.clearVotesBy b.creator) _ h3u
    refine ⟨((((v.ensureProfile b.creator).profiles b.ofUser).getD
        NewProfile).clearVotesFor b.ofUser).clearVotesBy b.creator,
      ((((v.ensureProfile b.creator).profiles b.ofUser).getD
        NewProfile).clearVotesFor b.ofUser).clearVotesBy b.creator,
      ?_, ?_, ?_, ?_, ?_, ?_, ?_, ?_, ?_⟩
    · rw [h4 b.creator, if_pos hCU]
    · rw [h4 b.ofUser, if_pos rfl]
    · simp [Profile.clearVotesBy, Profile.clearVotesFor, mem_removeKey]
    · simp [Profile.clearVotesBy, Profile.clearVotesFor, mem_removeKey]
    · simp [Profile.clearVotesBy, Profile.clearVotesFor, mem_removeKey]
    · simp [Profile.clearVotesBy, Profile.clearVotesFor, mem_removeKey]
    · simp [Profile.clearVotesBy, Profile.clearVotesFor, mem_removeKey]
    · simp [Profile.clearVotesBy, Profile.clearVotesFor, mem_removeKey]
    · intro _; rfl
  · -- distinct keys
    have h1c : (v.ensureProfile b.creator).profiles b.creator
        = some ((v.profiles b.creator).getD NewProfile) := by
      rw [h1 b.creator, if_pos rfl]
    have h2c : ((v.ensureProfile b.creator).ensureProfile b.ofUser).profiles
        b.creator = some ((v.profiles b.creator).getD NewProfile) := by
      rw [h2 b.creator, if_neg hCU]
      exact h1c
    have h2u : ((v.ensureProfile b.creator).ensureProfile b.ofUser).profiles
        b.ofUser
        = some (((v.ensureProfile b.creator).profiles b.ofUser).getD
          NewProfile) := by
      rw [h2 b.ofUser, if_pos rfl]
    have h3 := modifyProfile_profiles_of_some _ b.creator
      (fun p => p.clearVotesFor b.ofUser) _ h2c
    have h3u : (((v.ensureProfile b.creator).ensureProfile
        b.ofUser).modifyProfile b.creator
        (fun p => p.clearVotesFor b.ofUser)).profiles b.ofUser
        = some (((v.ensureProfile b.creator).profiles b.ofUser).getD
          NewProfile) := by
      rw [h3 b.ofUser, if_neg (fun hh => hCU hh.symm)]
      exact h2u
    have h4 := modifyProfile_profiles_of_some _ b.ofUser
      (fun p => p.clearVotesBy b.creator) _ h3u
    refine ⟨(((v.profiles b.creator).getD NewProfile).clearVotesFor b.ofUser),
      ((((v.ensureProfile b.creator).profiles b.ofUser).getD
        NewProfile).clearVotesBy b.creator),
      ?_, ?_, ?_, ?_, ?_, ?_, ?_, ?_, ?_⟩
    · rw [h4 b.creator, if_neg hCU, h3 b.creator, if_pos rfl]
    · rw [h4 b.ofUser, if_pos rfl]
    · simp [Profile.clearVotesFor, mem_removeKey]
    · simp [Profile.clearVotesFor, mem_removeKey]
    · simp [Profile.clearVotesFor, mem_removeKey]
    · simp [Profile.clearVotesBy, mem_removeKey]
    · simp [Profile.clearVotesBy, mem_removeKey]
    · simp [Profile.clearVotesBy, mem_removeKey]
    · intro hh; exact absurd hh hCU

/-- After `processUserVote`, both participants' profiles exist, and each
directional effect for the (creator, target) pair is present exactly when
the processed vote's value and tag select it — independent of any earlier
state, because the clearing prefix removes the pair from every relationship
set first. -/
theorem processUserVote_profiles_pair (v : ViewerState) (b : Body) :
    ∃ pc pt,
      (v.processUserVote b).profiles b.creator = some pc ∧
      (v.processUserVote b).profiles b.ofUser = some pt ∧
      ((b.ofUser ∈ pc.trusted) ↔ (b.value = 1 ∧ b.hasTag TrustTag = true)) ∧
      ((b.ofUser ∈ pc.markedAsSpam)
        ↔ (b.value = -1 ∧ b.hasTag SpamTag = true)) ∧
      ((b.ofUser ∈ pc.blocked) ↔ (b.value = -1 ∧ b.hasTag BlockTag = true)) ∧
      ((b.creator ∈ pt.trustedBy) ↔ (b.value = 1 ∧ b.hasTag TrustTag = true)) ∧
      ((b.creator ∈ pt.markedAsSpamBy)
        ↔ (b.value = -1 ∧ b.hasTag SpamTag = true)) ∧
      ((b.creator ∈ pt.blockedBy)
        ↔ (b.value = -1 ∧ b.hasTag BlockTag = true)) := by
  obtain ⟨qc, qt, hqc, hqt, g1, g2, g3, g4, g5, g6, halias⟩ :=
    clearStage_profiles v b
  have e1 : ¬((1 : Int) = -1) := by decide
  have e2 : ¬((-1 : Int) = 1) := by decide
  have e3 : ¬((0 : Int) = 1) := by decide
  have e4 : ¬((0 : Int) = -1) := by decide
  unfold ViewerState.processUserVote
  dsimp only
  by_cases hv1 : b.value = 1
  · rw [if_pos hv1]
    by_cases htr : b.hasTag TrustTag = true
    · rw [if_pos htr]
      rcases voteEffect_profiles _ b
          (fun p => { p with trusted := insertKey p.trusted b.ofUser })
          (fun p => { p with trustedBy := insertKey p.trustedBy b.creator })
          qc qt hqc hqt with
        ⟨hcu, hqq, hA1, hA2⟩ | ⟨hcu, hA1, hA2⟩
      · rw [← hqq] at g4 g5 g6
        refine ⟨_, _, hA1, hA2, ?_, ?_, ?_, ?_, ?_, ?_⟩ <;>
          simp [mem_insertKey, hv1, htr, e1, g1, g2, g3, g4, g5, g6]
      · refine ⟨_, _, hA1, hA2, ?_, ?_, ?_, ?_, ?_, ?_⟩ <;>
          simp [mem_insertKey, hv1, htr, e1, g1, g2, g3, g4, g5, g6]
    · rw [if_neg htr]
      refine ⟨qc, qt, hqc, hqt, ?_, ?_, ?_, ?_, ?_, ?_⟩ <;>
        simp [hv1, htr, e1, g1, g2, g3, g4, g5, g6]
  · rw [if_neg hv1]
    by_cases hv2 : b.value = -1
    · rw [if_pos hv2]
      by_cases hbl : b.hasTag BlockTag = true
      · rw [if_pos hbl]
        by_cases hsp : b.hasTag SpamTag = true
        · rw [if_pos hsp]
          rcases voteEffect_profiles _ b
              (fun p => { p with
                markedAsSpam := insertKey p.markedAsSpam b.ofUser })
              (fun p => { p with
                markedAsSpamBy := insertKey p.markedAsSpamBy b.creator })
              qc qt hqc hqt with
            ⟨hcu, hqq, hB1, hB2⟩ | ⟨hcu, hB1, hB2⟩
          · rw [← hqq] at g4 g5 g6
            rcases voteEffect_profiles _ b
                (fun p => { p with
                  blocked := insertKey p.blocked b.ofUser })
                (fun p => { p with
                  blockedBy := insertKey p.blockedBy b.creator })
                _ _ hB1 hB2 with
              ⟨hcu2, hqq2, hC1, hC2⟩ | ⟨hcu2, hC1, hC2⟩
            · refine ⟨_, _, hC1, hC2, ?_, ?_, ?_, ?_, ?_, ?_⟩ <;>
                simp [mem_insertKey, hv2, hsp, hbl, e2, g1, g2, g3, g4, g5, g6]
            · exact absurd hcu hcu2
          · rcases voteEffect_profiles _ b
                (fun p => { p with
                  blocked := insertKey p.blocked b.ofUser })
                (fun p => { p with
                  blockedBy := insertKey p.blockedBy b.creator })
                _ _ hB1 hB2 with
              ⟨hcu2, hqq2, hC1, hC2⟩ | ⟨hcu2, hC1, hC2⟩
            · exact absurd hcu2 hcu
            · refine ⟨_, _, hC1, hC2, ?_, ?_, ?_, ?_, ?_, ?_⟩ <;>
                simp [mem_insertKey, hv2, hsp, hbl, e2, g1, g2, g3, g4, g5, g6]
        · rw [if_neg hsp]
          rcases voteEffect_profiles _ b
              (fun p => { p with
                blocked := insertKey p.blocked b.ofUser })
              (fun p => { p with
                blockedBy := insertKey p.blockedBy b.creator })
              qc qt hqc hqt with
            ⟨hcu, hqq, hB1, hB2⟩ | ⟨hcu, hB1, hB2⟩
          · rw [← hqq] at g4 g5 g6
            refine ⟨_, _, hB1, hB2, ?_, ?_, ?_, ?_, ?_, ?_⟩ <;>
              simp [mem_insertKey, hv2, hsp, hbl, e2, g1, g2, g3, g4, g5, g6]
          · refine ⟨_, _, hB1, hB2, ?_, ?_, ?_, ?_, ?_, ?_⟩ <;>
              simp [mem_insertKey, hv2, hsp, hbl, e2, g1, g2, g3, g4, g5, g6]
      · rw [if_neg hbl]
        by_cases hsp : b.hasTag SpamTag = true
        · rw [if_pos hsp]
          rcases voteEffect_profiles _ b
              (fun p => { p with
                markedAsSpam := insertKey p.markedAsSpam b.ofUser })
              (fun p => { p with
                markedAsSpamBy := insertKey p.markedAsSpamBy b.creator })
              qc qt hqc hqt with
            ⟨hcu, hqq, hB1, hB2⟩ | ⟨hcu, hB1, hB2⟩
          · rw [← hqq] at g4 g5 g6
            refine ⟨_, _, hB1, hB2, ?_, ?_, ?_, ?_, ?_, ?_⟩ <;>
              simp [mem_insertKey, hv2, hsp, hbl, e2, g1, g2, g3, g4, g5, g6]
          · refine ⟨_, _, hB1, hB2, ?_, ?_, ?_, ?_, ?_, ?_⟩ <;>
              simp [mem_insertKey, hv2, hsp, hbl, e2, g1, g2, g3, g4, g5, g6]
        · rw [if_neg hsp]
          refine ⟨qc, qt, hqc, hqt, ?_, ?_, ?_, ?_, ?_, ?_⟩ <;>
            simp [hv2, hsp, hbl, e2, g1, g2, g3, g4, g5, g6]
    · rw [if_neg hv2]
      by_cases hv0 : b.value = 0
      · rw [if_pos hv0]
        refine ⟨qc, qt, ?_, ?_, ?_, ?_, ?_, ?_, ?_, ?_⟩
        · rw [ensureUsersOfUserVoteBody_profiles]
          exact hqc
        · rw [ensureUsersOfUserVoteBody_profiles]
          exact hqt
        all_goals simp [hv0, e3, e4, g1, g2, g3, g4, g5, g6]
      · rw [if_neg hv0]
        refine ⟨qc, qt, hqc, hqt, ?_, ?_, ?_, ?_, ?_, ?_⟩ <;>
          simp [hv1, hv2, g1, g2, g3, g4, g5, g6]

/-- First vote of the counterexample: `U1` trusts `U2`. -/
def bTrust : Body :=
  { baseBody with
    type := CType.userVote, creator := "U1", ofUser := "U2",
    value := 1, tags := ["trust"] }

/-- Second vote of the counterexample: `U1` votes `-1` on `U2` with BOTH the
spam and the block tag. -/
def bSpamBlock : Body :=
  { baseBody with
    type := CType.userVote, creator := "U1", ofUser := "U2",
    value := -1, tags := ["spam", "block"] }

/-- Counterexample for C2: after processing `bTrust` then `bSpamBlock` in
order, the first vote's effect is cleared, but the profiles reflect TWO
directional effects of the second vote (`markedAsSpam`/`markedAsSpamBy` and
`blocked`/`blockedBy` simultaneously), not "exactly one of
trusted/trustedBy, markedAsSpam/markedAsSpamBy, blocked/blockedBy" as the
claim states: the source applies each matching `-1` tag independently. -/
theorem processUserVote_two_effects_counterexample :
    ((((emptyViewer "PK").processUserVote bTrust).processUserVote
        bSpamBlock).profiles "U1").map
      (fun p => (p.trusted, p.markedAsSpam, p.blocked))
      = some ([], ["U2"], ["U2"])
  ∧ ((((emptyViewer "PK").processUserVote bTrust).processUserVote
        bSpamBlock).profiles "U2").map
      (fun p => (p.trustedBy, p.markedAsSpamBy, p.blockedBy))
      = some ([], ["U1"], ["U1"]) := by
  exact ⟨rfl, rfl⟩

/-- C2 (amended): for two user-votes with the same creator and the same
target processed in order, the resulting profiles reflect exactly the
second vote's directional effects — where the effects present are those
selected by its value and each matching tag (trusted/trustedBy iff value
`+1` with the trust tag; markedAsSpam/markedAsSpamBy iff value `-1` with
the spam tag; blocked/blockedBy iff value `-1` with the block tag; so a
`-1` vote carrying both tags leaves two effects and a vote whose tag does
not match its value leaves none) — and every directional effect of the
first vote on that pair has been cleared. -/
theorem processUserVote_latest_vote_wins (v : ViewerState) (b1 b2 : Body)
    (_hc : b1.creator = b2.creator) (_hu : b1.ofUser = b2.ofUser) :
    ∃ pc pt,
      (((v.processUserVote b1).processUserVote b2).profiles b2.creator
        = some pc) ∧
      (((v.processUserVote b1).processUserVote b2).profiles b2.ofUser
        = some pt) ∧
      ((b2.ofUser ∈ pc.trusted)
        ↔ (b2.value = 1 ∧ b2.hasTag TrustTag = true)) ∧
      ((b2.ofUser ∈ pc.markedAsSpam)
        ↔ (b2.value = -1 ∧ b2.hasTag SpamTag = true)) ∧
      ((b2.ofUser ∈ pc.blocked)
        ↔ (b2.value = -1 ∧ b2.hasTag BlockTag = true)) ∧
      ((b2.creator ∈ pt.trustedBy)
        ↔ (b2.value = 1 ∧ b2.hasTag TrustTag = true)) ∧
      ((b2.creator ∈ pt.markedAsSpamBy)
        ↔ (b2.value = -1 ∧ b2.hasTag SpamTag = true)) ∧
      ((b2.creator ∈ pt.blockedBy)
        ↔ (b2.value = -1 ∧ b2.hasTag BlockTag = true)) :=
  processUserVote_profiles_pair (v.processUserVote b1) b2

/-- Witness for C2's amended theorem at the counterexample's two votes. -/
theorem processUserVote_latest_vote_wins_witness :
    ∃ pc pt,
      ((((emptyViewer "PK").processUserVote bTrust).processUserVote
        bSpamBlock).profiles bSpamBlock.creator = some pc) ∧
      ((((emptyViewer "PK").processUserVote bTrust).processUserVote
        bSpamBlock).profiles bSpamBlock.ofUser = some pt) ∧
      ((bSpamBlock.ofUser ∈ pc.trusted)
        ↔ (bSpamBlock.value = 1 ∧ bSpamBlock.hasTag TrustTag = true)) ∧
      ((bSpamBlock.ofUser ∈ pc.markedAsSpam)
        ↔ (bSpamBlock.value = -1 ∧ bSpamBlock.hasTag SpamTag = true)) ∧
      ((bSpamBlock.ofUser ∈ pc.blocked)
        ↔ (bSpamBlock.value = -1 ∧ bSpamBlock.hasTag BlockTag = true)) ∧
      ((bSpamBlock.creator ∈ pt.trustedBy)
        ↔ (bSpamBlock.value = 1 ∧ bSpamBlock.hasTag TrustTag = true)) ∧
      ((bSpamBlock.creator ∈ pt.markedAsSpamBy)
        ↔ (bSpamBlock.value = -1 ∧ bSpamBlock.hasTag SpamTag = true)) ∧
      ((bSpamBlock.creator ∈ pt.blockedBy)
        ↔ (bSpamBlock.value = -1 ∧ bSpamBlock.hasTag BlockTag = true)) :=
  processUserVote_latest_vote_wins (emptyViewer "PK") bTrust bSpamBlock
    rfl rfl

/-!
### Claim C4 — Update applies only the board replacement and the New list
-/

/-- A single `Update` loop iteration leaves a hash's content entry, post
index and thread-index membership unchanged whenever the processed content
item neither has that hash nor references it as its thread or parent
post. -/
theorem updateNewItem_untouched (v v' : ViewerState) (c : Content)
    (h : String) (h1 : c.hash ≠ h) (h2 : c.body.ofThread ≠ h)
    (h3 : c.body.ofPost ≠ h)
    (hok : v.updateNewItem c = Except.ok v') :
    v'.content h = v.content h ∧ v'.postsOfThread h = v.postsOfThread h ∧
    (h ∈ v'.threads.keys ↔ h ∈ v.threads.keys) := by
  have h1' : ¬ (h = c.hash) := fun hh => h1 hh.symm
  have h2' : ¬ (h = c.body.ofThread) := fun hh => h2 hh.symm
  have h3' : ¬ (h = c.body.ofPost) := fun hh => h3 hh.symm
  unfold ViewerState.updateNewItem at hok
  cases hct : c.body.type <;> rw [hct] at hok <;> dsimp only at hok
  case board =>
    cases hok
    exact ⟨congrFun (ensureUser_content v _) h,
      congrFun (ensureUser_postsOfThread v _) h,
      by rw [ensureUser_threads]⟩
  case thread =>
    unfold ViewerState.addThread at hok
    cases hcb : checkBoardRef (v.ensureUser c.body.creator).pk c.body with
    | error e =>
      rw [hcb] at hok
      simp [Bind.bind, Except.bind, Except.map] at hok
    | ok u =>
      rw [hcb] at hok
      simp [Bind.bind, Except.bind, Except.map] at hok
      subst hok
      refine ⟨?_, ?_, ?_⟩
      · show mapSet (v.ensureUser c.body.creator).content c.hash _ h
          = v.content h
        rw [mapSet_eq, if_neg h1', ensureUser_content]
      · show mapSet (v.ensureUser c.body.creator).postsOfThread c.hash _ h
          = v.postsOfThread h
        rw [mapSet_eq, if_neg h1', ensureUser_postsOfThread]
      · show h ∈ ((v.ensureUser c.body.creator).threads.append c.hash).keys
          ↔ h ∈ v.threads.keys
        rw [ensureUser_threads]
        simp [Paginated.mem_append_keys, h1']
  case post =>
    unfold ViewerState.addPost at hok
    cases hcb : checkBoardRef (v.ensureUser c.body.creator).pk c.body with
    | error e =>
      rw [hcb] at hok
      simp [Bind.bind, Except.bind] at hok
    | ok u =>
      rw [hcb] at hok
      cases hctr : checkThreadRef c.body.ofThread c.body with
      | error e =>
        rw [hctr] at hok
        simp [Bind.bind, Except.bind] at hok
      | ok u2 =>
        rw [hctr] at hok
        simp only [Bind.bind, Except.bind] at hok
        cases hpt : (v.ensureUser c.body.creator).postsOfThread
            c.body.ofThread with
        | none => rw [hpt] at hok; cases hok
        | some posts =>
          rw [hpt] at hok
          dsimp only at hok
          by_cases hofp : c.body.ofPost ≠ ""
          · rw [if_pos hofp] at hok
            cases hok
            refine ⟨?_, ?_, by rw [ensureUser_threads]⟩
            · show mapSet (v.ensureUser c.body.creator).content c.hash _ h
                = v.content h
              rw [mapSet_eq, if_neg h1', ensureUser_content]
            · show mapSet (mapSet (v.ensureUser c.body.creator).postsOfThread
                  c.body.ofThread _) c.body.ofPost _ h = v.postsOfThread h
              rw [mapSet_eq, if_neg h3', mapSet_eq, if_neg h2',
                ensureUser_postsOfThread]
          · rw [if_neg hofp] at hok
            cases hok
            refine ⟨?_, ?_, by rw [ensureUser_threads]⟩
            · show mapSet (v.ensureUser c.body.creator).content c.hash _ h
                = v.content h
              rw [mapSet_eq, if_neg h1', ensureUser_content]
            · show mapSet (v.ensureUser c.body.creator).postsOfThread
                  c.body.ofThread _ h = v.postsOfThread h
              rw [mapSet_eq, if_neg h2', ensureUser_postsOfThread]
  case threadVote =>
    cases hok
    refine ⟨?_, ?_, ?_⟩
    · rw [(processVote_frame _ c).2.2.2.2, ensureUser_content]
    · rw [(processVote_frame _ c).2.2.2.1, ensureUser_postsOfThread]
    · rw [(processVote_frame _ c).2.2.1, ensureUser_threads]
  case postVote =>
    cases hok
    refine ⟨?_, ?_, ?_⟩
    · rw [(processVote_frame _ c).2.2.2.2, ensureUser_content]
    · rw [(processVote_frame _ c).2.2.2.1, ensureUser_postsOfThread]
    · rw [(processVote_frame _ c).2.2.1, ensureUser_threads]
  case userVote =>
    cases hok
    refine ⟨?_, ?_, ?_⟩
    · rw [(processVote_frame _ c).2.2.2.2, ensureUser_content]
    · rw [(processVote_frame _ c).2.2.2.1, ensureUser_postsOfThread]
    · rw [(processVote_frame _ c).2.2.1, ensureUser_threads]

/-- Folding `updateNewItem` over a list of content items none of which
carries or references the hash leaves that hash's entries unchanged. -/
theorem foldlM_updateNewItem_untouched (l : List Content) (h : String)
    (hl : ∀ c ∈ l, c.hash ≠ h ∧ c.body.ofThread ≠ h ∧ c.body.ofPost ≠ h) :
    ∀ v v', List.foldlM ViewerState.updateNewItem v l = Except.ok v' →
      v'.content h = v.content h ∧ v'.postsOfThread h = v.postsOfThread h ∧
      (h ∈ v'.threads.keys ↔ h ∈ v.threads.keys) := by
  induction l with
  | nil =>
    intro v v' hok
    simp [List.foldlM, pure, Except.pure] at hok
    subst hok
    exact ⟨rfl, rfl, Iff.rfl⟩
  | cons a l ih =>
    intro v v' hok
    rw [List.foldlM_cons] at hok
    cases ha : v.updateNewItem a with
    | error e =>
      rw [ha] at hok
      simp [Bind.bind, Except.bind] at hok
    | ok w =>
      rw [ha] at hok
      simp only [Bind.bind, Except.bind] at hok
      obtain ⟨ha1, ha2, ha3⟩ := hl a (List.mem_cons_self a l)
      have hstep := updateNewItem_untouched v w a h ha1 ha2 ha3 ha
      have hrest := ih (fun c hc => hl c (List.mem_cons_of_mem a hc)) w v' hok
      exact ⟨hrest.1.trans hstep.1, hrest.2.1.trans hstep.2.1,
        hrest.2.2.trans hstep.2.2⟩

/-- C4: `Viewer.Update` mutates the Indexer/Container only through the board
replacement and the dispatch of the change set's `New` items. First
conjunct: the result does not depend on the deletion lists at all (they are
never read). Second conjunct: a hash recorded as deleted — provided it is
not simultaneously carried or referenced by a `New` item and is not the old
or new board key — keeps its content entry, its post index and its
thread-index membership unchanged: deletions are not applied. -/
theorem update_ignores_deletions :
    (∀ (v : ViewerState) (bc : Content) (n : List Content)
        (dT dT' : List String) (dP dP' : List (String × String)),
      v.update bc ⟨n, dT, dP⟩ = v.update bc ⟨n, dT', dP'⟩)
  ∧ (∀ (v : ViewerState) (bc : Content) (ch : Changes) (v' : ViewerState)
        (h : String),
      v.update bc ch = Except.ok v' →
      (h ∈ ch.deletedThreads ∨ h ∈ ch.deletedPosts.map Prod.snd) →
      (∀ c ∈ ch.new, c.hash ≠ h ∧ c.body.ofThread ≠ h ∧ c.body.ofPost ≠ h) →
      h ≠ bc.hash → h ≠ v.board →
      v'.content h = v.content h ∧ v'.postsOfThread h = v.postsOfThread h ∧
      (h ∈ v'.threads.keys ↔ h ∈ v.threads.keys)) := by
  constructor
  · intro v bc n dT dT' dP dP'
    rfl
  · intro v bc ch v' h hok hdel hnew hbh hvb
    unfold ViewerState.update at hok
    have hfold := foldlM_updateNewItem_untouched ch.new h hnew
      (v.setBoard bc) v' hok
    have hsc : (v.setBoard bc).content h = v.content h := by
      rw [setBoard_content, if_neg hbh, if_neg hvb]
    refine ⟨hfold.1.trans hsc, hfold.2.1.trans ?_, ?_⟩
    · rw [(setBoard_frame v bc).2.2.1]
    · rw [(setBoard_frame v bc).2.1] at hfold
      exact hfold.2.2

/-- Witness for C4's second conjunct: updating `boardOnlyViewer` with a
change set recording thread `D` as deleted (and adding nothing) leaves the
entries for `D` unchanged. -/
theorem update_ignores_deletions_witness :
    ∃ v', boardOnlyViewer.update ⟨"B", baseBody⟩ ⟨[], ["D"], []⟩
        = Except.ok v'
      ∧ v'.content "D" = boardOnlyViewer.content "D"
      ∧ v'.postsOfThread "D" = boardOnlyViewer.postsOfThread "D"
      ∧ ("D" ∈ v'.threads.keys ↔ "D" ∈ boardOnlyViewer.threads.keys) := by
  refine ⟨_, rfl, ?_⟩
  exact update_ignores_deletions.2 boardOnlyViewer ⟨"B", baseBody⟩
    ⟨[], ["D"], []⟩ _ "D" rfl (Or.inl (by decide))
    (fun c hc => absurd hc (List.not_mem_nil c))
    (by decide) (by decide)

/-!
### Generic fold preservation and operation shape lemmas
-/

/-- A property preserved by every successful step of a monadic fold is
preserved by the whole fold. -/
theorem foldlM_inv {α : Type} (P : ViewerState → Prop)
    (f : ViewerState → α → Except ErrKind ViewerState) :
    ∀ (l : List α), (∀ w a w', a ∈ l → P w → f w a = Except.ok w' → P w') →
    ∀ v v', List.foldlM f v l = Except.ok v' → P v → P v' := by
  intro l
  induction l with
  | nil =>
    intro _ v v' hok hp
    simp [List.foldlM, pure, Except.pure] at hok
    subst hok
    exact hp
  | cons a l ih =>
    intro hstep v v' hok hp
    rw [List.foldlM_cons] at hok
    cases ha : f v a with
    | error e =>
      rw [ha] at hok
      simp [Bind.bind, Except.bind] at hok
    | ok w =>
      rw [ha] at hok
      simp only [Bind.bind, Except.bind] at hok
      exact ih (fun w1 b w1' hb => hstep w1 b w1' (List.mem_cons_of_mem a hb))
        w v' hok (hstep v a w (List.mem_cons_self a l) hp ha)

/-- Shape of a successful `addThread`: the returned hash is the thread's,
the content map gains the thread's representation at its hash, and the
remaining fields other than the thread/post indices are untouched. -/
theorem addThread_ok_shape (v : ViewerState) (tc : Content)
    (p : String × ViewerState) (hok : v.addThread tc = Except.ok p) :
    p.1 = tc.hash ∧ p.2.pk = v.pk ∧ p.2.board = v.board ∧
    p.2.users = v.users ∧ p.2.profiles = v.profiles ∧ p.2.votes = v.votes ∧
    p.2.content = mapSet v.content tc.hash tc.toRep ∧
    p.2.threads = v.threads.append tc.hash ∧
    p.2.postsOfThread = mapSet v.postsOfThread tc.hash newMapped := by
  unfold ViewerState.addThread at hok
  cases hcb : checkBoardRef v.pk tc.body with
  | error e =>
    rw [hcb] at hok
    simp [Bind.bind, Except.bind] at hok
  | ok u =>
    rw [hcb] at hok
    simp only [Bind.bind, Except.bind, Except.ok.injEq] at hok
    subst hok
    exact ⟨rfl, rfl, rfl, rfl, rfl, rfl, rfl, rfl, rfl⟩

/-- Shape of a successful `addPost`: the content map gains the post's
representation at its hash; public key, board key, thread index, user index,
profiles and votes are untouched. -/
theorem addPost_ok_shape (v : ViewerState) (tH : String) (pc : Content)
    (v' : ViewerState) (hok : v.addPost tH pc = Except.ok v') :
    v'.pk = v.pk ∧ v'.board = v.board ∧ v'.threads = v.threads ∧
    v'.users = v.users ∧ v'.profiles = v.profiles ∧ v'.votes = v.votes ∧
    v'.content = mapSet v.content pc.hash pc.toRep := by
  unfold ViewerState.addPost at hok
  cases hcb : checkBoardRef v.pk pc.body with
  | error e =>
    rw [hcb] at hok
    simp [Bind.bind, Except.bind] at hok
  | ok u =>
    rw [hcb] at hok
    cases hctr : checkThreadRef tH pc.body with
    | error e =>
      rw [hctr] at hok
      simp [Bind.bind, Except.bind] at hok
    | ok u2 =>
      rw [hctr] at hok
      simp only [Bind.bind, Except.bind] at hok
      cases hpt : v.postsOfThread tH with
      | none => rw [hpt] at hok; cases hok
      | some posts =>
        rw [hpt] at hok
        dsimp only at hok
        by_cases hofp : pc.body.ofPost ≠ ""
        · rw [if_pos hofp] at hok
          cases hok
          exact ⟨rfl, rfl, rfl, rfl, rfl, rfl, rfl⟩
        · rw [if_neg hofp] at hok
          cases hok
          exact ⟨rfl, rfl, rfl, rfl, rfl, rfl, rfl⟩

/-!
### Claim C9 — the board entry after bootstrap
-/

/-- The representation `setBoard` stores for the board content: `ToRep` with
the board public key filled in. -/
def boardRep (pk : String) (bc : Content) : ContentRep :=
  { bc.toRep with pubKey := some pk }

/-- Invariant tying a viewer state to its board: the board key is the board
content's hash, the container holds the board representation there, and
every other content entry has no public key set (only `setBoard` sets
one). -/
def boardInv (B : String) (brep : ContentRep) (v : ViewerState) : Prop :=
  v.board = B ∧ v.content B = some brep ∧
  ∀ k r, k ≠ B → v.content k = some r → r.pubKey = none

/-- One post insertion (with its creator ensured) preserves `boardInv` when
the post's hash is not the board hash. -/
theorem boardInv_addPost_step (B : String) (brep : ContentRep) (tH : String)
    (pc : Content) (w w' : ViewerState) (hB : pc.hash ≠ B)
    (hok : (w.ensureUser pc.body.creator).addPost tH pc = Except.ok w')
    (hp : boardInv B brep w) : boardInv B brep w' := by
  obtain ⟨hpk, hbd, hth, hus, hpr, hvt, hct⟩ := addPost_ok_shape _ tH pc w' hok
  obtain ⟨h1, h2, h3⟩ := hp
  refine ⟨?_, ?_, ?_⟩
  · rw [hbd, ensureUser_board, h1]
  · rw [hct, mapSet_eq, if_neg (fun hh => hB hh.symm), ensureUser_content]
    exact h2
  · intro k r hk hkr
    rw [hct, mapSet_eq] at hkr
    by_cases hkp : k = pc.hash
    · rw [if_pos hkp] at hkr
      cases hkr
      rfl
    · rw [if_neg hkp] at hkr
      rw [ensureUser_content] at hkr
      exact h3 k r hk hkr

/-- One thread page (thread plus posts) preserves `boardInv` when none of
its content hashes is the board hash. -/
theorem boardInv_addThreadPage (B : String) (brep : ContentRep)
    (tp : Content × List Content) (v v' : ViewerState)
    (h1 : tp.1.hash ≠ B) (h2 : ∀ pc ∈ tp.2, pc.hash ≠ B)
    (hok : v.addThreadPage tp = Except.ok v') (hp : boardInv B brep v) :
    boardInv B brep v' := by
  unfold ViewerState.addThreadPage at hok
  dsimp only at hok
  cases hat : (v.ensureUser tp.1.body.creator).addThread tp.1 with
  | error e =>
    rw [hat] at hok
    simp [Bind.bind, Except.bind] at hok
  | ok p =>
    rw [hat] at hok
    simp only [Bind.bind, Except.bind] at hok
    obtain ⟨tH, v2⟩ := p
    dsimp only at hok
    have hq2 : boardInv B brep v2 := by
      obtain ⟨hh, hpk, hbd, hus, hpr, hvt, hct, hthr, hpot⟩ :=
        addThread_ok_shape _ tp.1 (tH, v2) hat
      obtain ⟨q1, q2, q3⟩ := hp
      refine ⟨?_, ?_, ?_⟩
      · rw [hbd, ensureUser_board, q1]
      · rw [hct, mapSet_eq, if_neg (fun hh2 => h1 hh2.symm),
          ensureUser_content]
        exact q2
      · intro k r hk hkr
        rw [hct, mapSet_eq] at hkr
        by_cases hkp : k = tp.1.hash
        · rw [if_pos hkp] at hkr
          cases hkr
          rfl
        · rw [if_neg hkp] at hkr
          rw [ensureUser_content] at hkr
          exact q3 k r hk hkr
    exact foldlM_inv (boardInv B brep) _ tp.2
      (fun w pc w' hpc hw hok' =>
        boardInv_addPost_step B brep tH pc w w' (h2 pc hpc) hok' hw)
      v2 v' hok hq2

/-- One user-submission step preserves `boardInv` (vote processing never
touches the content map or the board key). -/
theorem boardInv_processSub (B : String) (brep : ContentRep) (c : Content)
    (w w' : ViewerState) (hok : w.processSub c = Except.ok w')
    (hp : boardInv B brep w) : boardInv B brep w' := by
  cases hok
  obtain ⟨h1, h2, h3⟩ := hp
  refine ⟨?_, ?_, ?_⟩
  · rw [(processVote_frame _ c).2.1, ensureUser_board, h1]
  · rw [congrFun (processVote_frame _ c).2.2.2.2 B,
      congrFun (ensureUser_content w c.body.creator) B]
    exact h2
  · intro k r hk hkr
    rw [congrFun (processVote_frame _ c).2.2.2.2 k,
      congrFun (ensureUser_content w c.body.creator) k] at hkr
    exact h3 k r hk hkr

/-- C9: bootstrap from a valid snapshot (whose thread and post hashes differ
from the board content hash, as content addressing guarantees) yields a
viewer whose `GetBoard` returns the board representation; the Container
holds that representation exactly once — any key mapping to it is the board
content's current hash; and `setBoard` removes the entry stored under a
previous board key whenever the key changed. -/
theorem newViewer_board_unique (pk : String) (s : ViewSnapshot)
    (v : ViewerState) (hok : newViewer pk s = Except.ok v)
    (hdisj : ∀ tp ∈ s.threadPages,
      tp.1.hash ≠ s.board.hash ∧ ∀ pc ∈ tp.2, pc.hash ≠ s.board.hash) :
    v.getBoard = Except.ok (some (boardRep pk s.board))
  ∧ v.board = s.board.hash
  ∧ (∀ k r, v.content k = some r → r = boardRep pk s.board →
      k = s.board.hash)
  ∧ (∀ (w : ViewerState) (bc : Content), w.board ≠ bc.hash →
      (w.setBoard bc).content w.board = none) := by
  have hinv0 : boardInv s.board.hash (boardRep pk s.board)
      ((emptyViewer pk).setBoard s.board) := by
    refine ⟨rfl, ?_, ?_⟩
    · rw [setBoard_content, if_pos rfl]
      rfl
    · intro k r hk hkr
      rw [setBoard_content] at hkr
      rw [if_neg hk] at hkr
      by_cases hk2 : k = (emptyViewer pk).board
      · rw [if_pos hk2] at hkr
        cases hkr
      · rw [if_neg hk2] at hkr
        cases hkr
  unfold newViewer at hok
  dsimp only at hok
  cases hf1 : List.foldlM ViewerState.addThreadPage
      ((emptyViewer pk).setBoard s.board) s.threadPages with
  | error e =>
    rw [hf1] at hok
    simp [Bind.bind, Except.bind] at hok
  | ok v1 =>
    rw [hf1] at hok
    simp only [Bind.bind, Except.bind] at hok
    have hinv1 : boardInv s.board.hash (boardRep pk s.board) v1 :=
      foldlM_inv _ _ s.threadPages
        (fun w tp w' htp hw hok' =>
          boardInv_addThreadPage _ _ tp w w' (hdisj tp htp).1
            (hdisj tp htp).2 hok' hw)
        _ v1 hf1 hinv0
    have hinv : boardInv s.board.hash (boardRep pk s.board) v :=
      foldlM_inv _ _ s.userSubs
        (fun w c w' _ hw hok' => boardInv_processSub _ _ c w w' hok' hw)
        v1 v hok hinv1
    obtain ⟨h1, h2, h3⟩ := hinv
    refine ⟨?_, h1, ?_, ?_⟩
    · unfold ViewerState.getBoard
      rw [h1, h2]
    · intro k r hkr hrep
      by_cases hk : k = s.board.hash
      · exact hk
      · exfalso
        have := h3 k r hk hkr
        rw [hrep] at this
        cases this
    · intro w bc hne
      rw [setBoard_content, if_neg hne, if_pos rfl]

/-- The board-plus-one-thread snapshot used by concrete witnesses. -/
def snapW : ViewSnapshot :=
  ⟨⟨"B", baseBody⟩, [(threadC, [])], []⟩

/-- The viewer bootstrapped from `snapW`. -/
def vW : ViewerState :=
  ((newViewer "PK" snapW).toOption).getD (emptyViewer "PK")

/-- Witness for C9 at the concrete snapshot `snapW`. -/
theorem newViewer_board_unique_witness :
    vW.getBoard = Except.ok (some (boardRep "PK" ⟨"B", baseBody⟩))
  ∧ vW.board = "B" :=
  ⟨(newViewer_board_unique "PK" snapW vW rfl (by decide)).1,
    (newViewer_board_unique "PK" snapW vW rfl (by decide)).2.1⟩

/-!
### Claim C10 — every indexed user has a profile record
-/

/-- The invariant: every public key in the `Users` pagination index has a
backing profile record in the Container. -/
def profilesCoverUsers (v : ViewerState) : Prop :=
  ∀ u, u ∈ v.users.keys → (v.profiles u).isSome = true

/-- Transfer of the invariant along states with identical user index and
profile map. -/
theorem profilesCoverUsers_of_eq (w w' : ViewerState)
    (hu : w'.users = w.users) (hp : w'.profiles = w.profiles) :
    profilesCoverUsers w → profilesCoverUsers w' := by
  intro h x hx
  rw [hp]
  exact h x (hu ▸ hx)

theorem ensureProfile_profiles_isSome (v : ViewerState) (u x : String) :
    ((v.ensureProfile u).profiles x).isSome =
      (x = u ∨ (v.profiles x).isSome) := by
  rw [ensureProfile_profiles]
  by_cases hxu : x = u
  · simp [hxu]
  · simp [hxu]

theorem voteEffect_profiles_isSome (v : ViewerState) (b : Body)
    (eff effBy : Profile → Profile) (x : String) :
    ((v.voteEffect b eff effBy).profiles x).isSome =
      (v.profiles x).isSome := by
  unfold ViewerState.voteEffect
  dsimp only
  rw [modifyProfile_profiles_isSome, modifyProfile_profiles_isSome]
  rfl

theorem voteEffect_users (v : ViewerState) (b : Body)
    (eff effBy : Profile → Profile) :
    (v.voteEffect b eff effBy).users =
      (v.users.append b.creator).append b.ofUser := by
  unfold ViewerState.voteEffect
  dsimp only
  rw [modifyProfile_users, modifyProfile_users]
  rfl

/-- `processUserVote` changes a profile's existence exactly as the two
initial `GetProfile` calls do. -/
theorem processUserVote_profiles_isSome_eq (v : ViewerState) (b : Body)
    (x : String) :
    ((v.processUserVote b).profiles x).isSome =
      (((v.ensureProfile b.creator).ensureProfile b.ofUser).profiles
        x).isSome := by
  unfold ViewerState.processUserVote
  dsimp only
  split_ifs <;>
    simp only [voteEffect_profiles_isSome, modifyProfile_profiles_isSome,
      ensureUsersOfUserVoteBody_profiles]

/-- Every user indexed by `processUserVote` was already indexed or is one of
the vote's two participants. -/
theorem processUserVote_users_sub (v : ViewerState) (b : Body) (x : String)
    (hx : x ∈ (v.processUserVote b).users.keys) :
    x ∈ v.users.keys ∨ x = b.creator ∨ x = b.ofUser := by
  revert hx
  unfold ViewerState.processUserVote
  dsimp only
  split_ifs <;> intro hx <;> revert hx <;>
    simp only [voteEffect_users, ensureUsersOfUserVoteBody_users,
      modifyProfile_users, ensureProfile_users,
      Paginated.mem_append_keys] <;>
    tauto

theorem profilesCoverUsers_ensureUser (v : ViewerState) (u : String) :
    profilesCoverUsers v → profilesCoverUsers (v.ensureUser u) := by
  intro hp x hx
  rw [ensureUser_users] at hx
  rw [ensureUser_profiles_isSome]
  rcases Paginated.mem_append_keys.1 hx with hold | hxu
  · exact Or.inr (hp x hold)
  · exact Or.inl hxu

theorem profilesCoverUsers_processVote (v : ViewerState) (c : Content) :
    profilesCoverUsers v → profilesCoverUsers (v.processVote c) := by
  intro hp
  unfold ViewerState.processVote
  cases c.body.type
  case board => exact hp
  case thread => exact hp
  case post => exact hp
  case threadVote =>
    exact profilesCoverUsers_of_eq v _ (processContentVote_frame _ _ _ _).2.2.2.2.2.1
      (processContentVote_frame _ _ _ _).2.2.2.2.2.2 hp
  case postVote =>
    exact profilesCoverUsers_of_eq v _ (processContentVote_frame _ _ _ _).2.2.2.2.2.1
      (processContentVote_frame _ _ _ _).2.2.2.2.2.2 hp
  case userVote =>
    intro x hx
    rw [processUserVote_profiles_isSome_eq, ensureProfile_profiles_isSome,
      ensureProfile_profiles_isSome]
    rcases processUserVote_users_sub v c.body x hx with hold | hxc | hxu
    · exact Or.inr (Or.inr (hp x hold))
    · exact Or.inr (Or.inl hxc)
    · exact Or.inl hxu

theorem profilesCoverUsers_updateNewItem (v v' : ViewerState) (c : Content)
    (hok : v.updateNewItem c = Except.ok v') :
    profilesCoverUsers v → profilesCoverUsers v' := by
  intro hp
  have hp1 := profilesCoverUsers_ensureUser v c.body.creator hp
  unfold ViewerState.updateNewItem at hok
  cases hct : c.body.type <;> rw [hct] at hok <;> dsimp only at hok
  case board =>
    cases hok
    exact hp1
  case thread =>
    cases hat : (v.ensureUser c.body.creator).addThread c with
    | error e => rw [hat] at hok; simp [Except.map] at hok
    | ok p =>
      rw [hat] at hok
      simp [Except.map] at hok
      subst hok
      obtain ⟨_, _, _, hus, hpr, _⟩ := addThread_ok_shape _ c p hat
      exact profilesCoverUsers_of_eq _ _ hus hpr hp1
  case post =>
    obtain ⟨_, _, _, hus, hpr, _⟩ := addPost_ok_shape _ c.body.ofThread c v' hok
    exact profilesCoverUsers_of_eq _ _ hus hpr hp1
  case threadVote =>
    cases hok
    exact profilesCoverUsers_processVote _ c hp1
  case postVote =>
    cases hok
    exact profilesCoverUsers_processVote _ c hp1
  case userVote =>
    cases hok
    exact profilesCoverUsers_processVote _ c hp1

theorem profilesCoverUsers_addThreadPage (v v' : ViewerState)
    (tp : Content × List Content)
    (hok : v.addThreadPage tp = Except.ok v') :
    profilesCoverUsers v → profilesCoverUsers v' := by
  intro hp
  unfold ViewerState.addThreadPage at hok
  dsimp only at hok
  cases hat : (v.ensureUser tp.1.body.creator).addThread tp.1 with
  | error e =>
    rw [hat] at hok
    simp [Bind.bind, Except.bind] at hok
  | ok p =>
    rw [hat] at hok
    simp only [Bind.bind, Except.bind] at hok
    obtain ⟨tH, v2⟩ := p
    dsimp only at hok
    have hp2 : profilesCoverUsers v2 := by
      obtain ⟨_, _, _, hus, hpr, _⟩ := addThread_ok_shape _ tp.1 (tH, v2) hat
      exact profilesCoverUsers_of_eq _ _ hus hpr
        (profilesCoverUsers_ensureUser v tp.1.body.creator hp)
    exact foldlM_inv profilesCoverUsers _ tp.2
      (fun w pc w' _ hw hok' => by
        obtain ⟨_, _, _, hus, hpr, _⟩ := addPost_ok_shape _ tH pc w' hok'
        exact profilesCoverUsers_of_eq _ _ hus hpr
          (profilesCoverUsers_ensureUser w pc.body.creator hw))
      v2 v' hok hp2

theorem profilesCoverUsers_processSub (v v' : ViewerState) (c : Content)
    (hok : v.processSub c = Except.ok v') :
    profilesCoverUsers v → profilesCoverUsers v' := by
  intro hp
  cases hok
  exact profilesCoverUsers_processVote _ c
    (profilesCoverUsers_ensureUser v c.body.creator hp)

theorem profilesCoverUsers_newViewer (pk : String) (s : ViewSnapshot)
    (v : ViewerState) (hok : newViewer pk s = Except.ok v) :
    profilesCoverUsers v := by
  have hp0 : profilesCoverUsers ((emptyViewer pk).setBoard s.board) := by
    intro x hx
    simp [emptyViewer, newMapped, ViewerState.setBoard] at hx
  unfold newViewer at hok
  dsimp only at hok
  cases hf1 : List.foldlM ViewerState.addThreadPage
      ((emptyViewer pk).setBoard s.board) s.threadPages with
  | error e =>
    rw [hf1] at hok
    simp [Bind.bind, Except.bind] at hok
  | ok v1 =>
    rw [hf1] at hok
    simp only [Bind.bind, Except.bind] at hok
    have hp1 : profilesCoverUsers v1 :=
      foldlM_inv profilesCoverUsers _ s.threadPages
        (fun w tp w' _ hw hok' =>
          profilesCoverUsers_addThreadPage w w' tp hok' hw)
        _ v1 hf1 hp0
    exact foldlM_inv profilesCoverUsers _ s.userSubs
      (fun w c w' _ hw hok' => profilesCoverUsers_processSub w w' c hok' hw)
      v1 v hok hp1

theorem profilesCoverUsers_update (v : ViewerState) (bc : Content)
    (ch : Changes) (v' : ViewerState) (hok : v.update bc ch = Except.ok v') :
    profilesCoverUsers v → profilesCoverUsers v' := by
  intro hp
  unfold ViewerState.update at hok
  have hpb : profilesCoverUsers (v.setBoard bc) :=
    profilesCoverUsers_of_eq _ _ (setBoard_frame v bc).2.2.2.1
      (setBoard_frame v bc).2.2.2.2.2 hp
  exact foldlM_inv profilesCoverUsers _ ch.new
    (fun w c w' _ hw hok' => profilesCoverUsers_updateNewItem w w' c hok' hw)
    _ v' hok hpb

/-- C10: in every reachable Viewer state (successful bootstrap followed by
any sequence of successful updates), every user public key in the `Users`
index has a profile record in the Container — every path that appends to
the index (`ensureUser`, or `EnsureUsersOfUserVoteBody` after the two
`GetProfile` calls of `processUserVote`) has created the profiles first —
and hence `GetUserProfile` can never return its `Internal` error. -/
theorem users_have_profiles_invariant (v : ViewerState) (hv : Reaches v) :
    (∀ u, u ∈ v.users.keys → (v.profiles u).isSome = true)
  ∧ (∀ u, v.getUserProfile u ≠ Except.error ErrKind.internal) := by
  have hmain : profilesCoverUsers v := by
    induction hv with
    | boot pk s w hok => exact profilesCoverUsers_newViewer pk s w hok
    | step w bc ch w' _ hok ih => exact profilesCoverUsers_update w bc ch w' hok ih
  refine ⟨hmain, ?_⟩
  intro u
  unfold ViewerState.getUserProfile
  by_cases hu : v.users.has u = true
  · rw [if_pos hu]
    have hm : u ∈ v.users.keys := by
      simpa [Paginated.has] using hu
    have hs := hmain u hm
    cases hpu : v.profiles u with
    | none => rw [hpu] at hs; cases hs
    | some p =>
      intro hcon
      cases hcon
  · rw [if_neg hu]
    intro hcon
    exact absurd (Except.error.inj hcon) (by decide)

/-- Witness for C10 at the concrete bootstrapped viewer `vW`. -/
theorem users_have_profiles_invariant_witness :
    vW.getUserProfile "U1" ≠ Except.error ErrKind.internal :=
  (users_have_profiles_invariant vW
    (Reaches.boot "PK" snapW vW rfl)).2 "U1"
